import Mathlib

/-!
Verification of the cointracker-hiring transaction pipeline.

This file gives a shallow embedding, in Lean 4, of the pure computational
core of the repository: the Etherscan record normalizers
(pkg/providers/normalizer.go and internal/normalize), the fetch
orchestration result collection (the two ParallelFetcher variants and the
TransactionFetcher), the generic normalization worker pool statistics
(parallel_normalizer variants), and the merge/sort stage
(models.TransactionList with Go 1.24 sort.Sort, i.e. pdqsort).

Machine integers are modelled as Nat/Int with explicit wrap-around where it
matters; Go's (value, error) returns are modelled as pairs with an Option
error; code paths that panic in Go are modelled with Option, none denoting
the panic.  Floating point behaviour of strconv.FormatFloat / big.Rat.Float64
is modelled exactly, in rational arithmetic: the IEEE-754 binary64 rounding
of a rational is a well defined rational-valued function, and the shortest
round-tripping decimal of a double is a well defined string.
-/

set_option maxRecDepth 20000

namespace CT

abbrev GoErr := String

/- ===================== strconv: decimal string parsing ===================== -/

/-- A decimal digit character. -/
def isDigitChar (c : Char) : Bool := decide ('0' ≤ c) && decide (c ≤ '9')

/-- Numeric value of a digit character. -/
def digitVal (c : Char) : ℕ := c.toNat - '0'.toNat

/-- Value of a nonempty all-digit decimal string, as in Go's number scanners
(no sign, base 10, no underscores). -/
def decDigitsVal? (s : String) : Option ℕ :=
  if s.data.length = 0 then none
  else if s.data.all isDigitChar then
    some (s.data.foldl (fun a c => 10 * a + digitVal c) 0)
  else none

/-- strconv.ParseUint(s, 10, 64): returns the parsed value and an ok flag.
On a syntax error Go returns (0, ErrSyntax); on overflow it returns
(MaxUint64, ErrRange).  We model the error as ok = false. -/
def parseUintGo (s : String) : ℕ × Bool :=
  match decDigitsVal? s with
  | none => (0, false)
  | some v => if v < 2 ^ 64 then (v, true) else (2 ^ 64 - 1, false)

/-- strconv.ParseInt(s, 10, 64) (also the meaning of strconv.Atoi on 64-bit
platforms): optional sign, decimal digits, clamped to int64 on range error. -/
def parseIntGo (s : String) : ℤ × Bool :=
  match s.data with
  | [] => (0, false)
  | c :: rest =>
    let neg := c = '-'
    let core : List Char := if c = '-' ∨ c = '+' then rest else c :: rest
    match decDigitsVal? (String.mk core) with
    | none => (0, false)
    | some v =>
      if neg then
        if v ≤ 2 ^ 63 then (-(v : ℤ), true) else (-(2 ^ 63 : ℤ), false)
      else
        if v < 2 ^ 63 then ((v : ℤ), true) else ((2 ^ 63 - 1 : ℤ), false)

/- ===================== exact model of binary64 arithmetic ==================== -/

/-- Exact rational arithmetic, as unnormalized fractions with a positive
denominator: the value semantics of math/big's big.Rat.  (Lean's Rat
carries reducedness proofs that block kernel evaluation, so the embedding
uses this proof-free pair representation; only the represented value ever
matters, and every comparison below is a value comparison.) -/
structure Q where
  num : ℤ
  den : ℕ
  deriving Repr, DecidableEq

/-- The rational value a Q represents (for stating lemmas). -/
def Q.val (q : Q) : ℚ := (q.num : ℚ) / (q.den : ℚ)

def Q.ofNat (n : ℕ) : Q := ⟨n, 1⟩

def Q.ofInt (n : ℤ) : Q := ⟨n, 1⟩

def Q.mul (a b : Q) : Q := ⟨a.num * b.num, a.den * b.den⟩

/-- Division of exact rationals (the divisor is nonzero at every use,
matching big.Rat.Quo's panic on a zero divisor being handled separately). -/
def Q.div (a b : Q) : Q :=
  if b.num < 0 then ⟨-(a.num * b.den), a.den * (-b.num).toNat⟩
  else ⟨a.num * b.den, a.den * b.num.toNat⟩

def Q.le (a b : Q) : Bool := a.num * b.den ≤ b.num * a.den

def Q.lt (a b : Q) : Bool := a.num * b.den < b.num * a.den

def Q.eqv (a b : Q) : Bool := a.num * b.den = b.num * a.den

def Q.isNonPos (a : Q) : Bool := a.num ≤ 0

def Q.isNeg (a : Q) : Bool := a.num < 0

def Q.neg (a : Q) : Q := ⟨-a.num, a.den⟩

/-- b^e as an exact rational, for an integer exponent e. -/
def qPow (b : ℕ) (e : ℤ) : Q :=
  if 0 ≤ e then ⟨((b ^ e.toNat : ℕ) : ℤ), 1⟩ else ⟨1, b ^ (-e).toNat⟩

/-- Number of base-b digits of n (0 for n = 0), with structural fuel. -/
def lenInBase (b : ℕ) : ℕ → ℕ → ℕ
  | 0, _ => 0
  | fuel + 1, n => if n = 0 then 0 else lenInBase b fuel (n / b) + 1

/-- Largest e with b^e ≤ q, for q > 0 and b ≥ 2 (floor of log_b q): a
digit-count estimate corrected by direct comparison. -/
def qFloorLog (b : ℕ) (q : Q) : ℤ :=
  let e0 : ℤ := (lenInBase b 8000 q.num.toNat : ℤ) - (lenInBase b 8000 q.den : ℤ)
  if q.lt (qPow b (e0 - 1)) then e0 - 2
  else if q.lt (qPow b e0) then e0 - 1
  else if q.lt (qPow b (e0 + 1)) then e0
  else e0 + 1

/-- Round an exact rational to the nearest integer, ties to even. -/
def qRoundTiesEven (q : Q) : ℤ :=
  let f := q.num.fdiv q.den
  let r := q.num - f * q.den
  if 2 * r < (q.den : ℤ) then f
  else if (q.den : ℤ) < 2 * r then f + 1
  else if f % 2 = 0 then f else f + 1

/-- Round a positive rational to p significant binary digits
(nearest, ties to even): the rounding performed by big.Float at
precision p and by IEEE-754 in the normal range when p = 53. -/
def roundSigBits (p : ℕ) (q : Q) : Q :=
  if q.isNonPos then ⟨0, 1⟩
  else
    let e := qFloorLog 2 q
    let scale : ℤ := (p : ℤ) - 1 - e
    (Q.ofInt (qRoundTiesEven (q.mul (qPow 2 scale)))).mul (qPow 2 (-scale))

/-- The IEEE-754 binary64 value nearest to a nonnegative rational
(ties to even), as an exact rational; none denotes overflow to +Inf.
This is the rounding performed by big.Rat.Float64 and strconv.ParseFloat. -/
def roundFloat64 (q : Q) : Option Q :=
  if q.isNonPos then some ⟨0, 1⟩
  else
    let e := qFloorLog 2 q
    if e < -1022 then
      some ((Q.ofInt (qRoundTiesEven (q.mul (qPow 2 1074)))).mul (qPow 2 (-1074)))
    else
      let v := roundSigBits 53 q
      if (qPow 2 1024).le v then none else some v

/-- Value equality on optional rationals (none = +Inf). -/
def qEqOpt : Option Q → Option Q → Bool
  | none, none => true
  | some a, some b => a.eqv b
  | _, _ => false

/-- Round a positive rational to d significant decimal digits (nearest, ties
to even), returned as (n, k) with value n * 10^k. -/
def decRoundSig (d : ℕ) (q : Q) : ℤ × ℤ :=
  let e := qFloorLog 10 q
  let k : ℤ := e - (d - 1 : ℕ)
  (qRoundTiesEven (q.mul (qPow 10 (-k))), k)

/-- Drop factors of 10 from n, moving them into the exponent k. -/
def dropTensAux : ℕ → ℕ → ℤ → ℕ × ℤ
  | 0, n, k => (n, k)
  | fuel + 1, n, k =>
    if n ≠ 0 ∧ n % 10 = 0 then dropTensAux fuel (n / 10) (k + 1) else (n, k)

/-- Normalized (n, k) with n not divisible by 10 (unless n = 0). -/
def dropTens (n : ℕ) (k : ℤ) : ℕ × ℤ := dropTensAux 400 n k

/-- Fixed-notation rendering of n * 10^k for n > 0, as produced by
strconv.FormatFloat with the f format. -/
def renderDecFixed (n : ℕ) (k : ℤ) : String :=
  if 0 ≤ k then Nat.repr n ++ String.mk (List.replicate k.toNat '0')
  else
    let s := Nat.repr n
    let m := (-k).toNat
    if m < s.data.length then
      String.mk (s.data.take (s.data.length - m)) ++ "." ++
        String.mk (s.data.drop (s.data.length - m))
    else "0." ++ String.mk (List.replicate (m - s.data.length) '0') ++ s

/-- The shortest correctly-rounded decimal digits (n, k) whose value parses
back to exactly the binary64 value f > 0: the digits emitted by
strconv.FormatFloat(f, 'f', -1, 64). -/
def shortestDigits (f : Q) : ℤ × ℤ :=
  match (List.range 17).find?
      (fun i =>
        let nk := decRoundSig (i + 1) f
        qEqOpt (roundFloat64 ((Q.ofInt nk.1).mul (qPow 10 nk.2))) (some f)) with
  | some i => decRoundSig (i + 1) f
  | none => decRoundSig 17 f

/-- strconv.FormatFloat(f, 'f', -1, 64) for a nonnegative binary64 value f
given by its exact rational value (none = +Inf). -/
def formatFloatShortest (f : Option Q) : String :=
  match f with
  | none => "+Inf"
  | some v =>
    if v.num = 0 then "0"
    else
      let nk := shortestDigits v
      let nk2 := dropTens nk.1.toNat nk.2
      renderDecFixed nk2.1 nk2.2

/-- Sign-aware wrapper: the string Go produces from a big.Rat q via
Float64 + strconv.FormatFloat(f, 'f', -1, 64). -/
def ratToGoFloatString (q : Q) : String :=
  if q.isNeg then "-" ++ formatFloatShortest (roundFloat64 q.neg)
  else formatFloatShortest (roundFloat64 q)

/-- Modelled from the spec: the exact decimal rendering of v / 10^e with no
precision loss (integer part, then the fractional digits with trailing zeros
removed).  This is the reference value the spec requires for amounts and
fees; the code under test is compared against it. -/
def exactScaledDecimal (v : ℕ) (e : ℕ) : String :=
  let ip := v / 10 ^ e
  let fp := v % 10 ^ e
  if fp = 0 then Nat.repr ip
  else
    let ds := Nat.repr fp
    let padded := List.replicate (e - ds.data.length) '0' ++ ds.data
    Nat.repr ip ++ "." ++ String.mk (padded.reverse.dropWhile (· = '0')).reverse

/- ===================== pkg/models: Transaction ===================== -/

/-- models.TransactionType. -/
inductive TransactionType where
  | ethTransfer
  | erc20Transfer
  | erc721Transfer
  | erc1155Transfer
  | internalTx
  | contractCreate
  deriving DecidableEq, Repr, Inhabited

/-- models.Transaction.  Go's time.Time produced by time.Unix(ts, 0) is
modelled by the Unix seconds value ts : Int; Timestamp.Before is <. -/
structure Transaction where
  hash : String := ""
  timestamp : ℤ := 0
  fromAddress : String := ""
  toAddress : String := ""
  type : TransactionType := .ethTransfer
  assetContractAddress : String := ""
  assetSymbol : String := ""
  tokenID : String := ""
  amount : String := ""
  gasFeeETH : String := ""
  blockNumber : ℕ := 0
  gasUsed : ℕ := 0
  gasPrice : String := ""
  transactionFee : String := ""
  nonce : ℕ := 0
  isError : Bool := false
  input : String := ""
  methodID : String := ""
  functionName : String := ""
  decimals : ℤ := 0
  deriving DecidableEq, Repr, Inhabited

/-- models.TransactionList.Less: sort by block number first, then timestamp
(Timestamp.Before). -/
def transactionLess (x y : Transaction) : Bool :=
  if x.blockNumber ≠ y.blockNumber then decide (x.blockNumber < y.blockNumber)
  else decide (x.timestamp < y.timestamp)

/- ===================== pkg/providers: raw Etherscan records ================= -/

/-- providers.EtherscanNormalTx (all fields are decimal/hex strings on the
wire).  Go's field names From and To are Lean keywords and are rendered as
fromAddress and toAddress. -/
structure EtherscanNormalTx where
  blockNumber : String := ""
  timeStamp : String := ""
  hash : String := ""
  nonce : String := ""
  blockHash : String := ""
  transactionIndex : String := ""
  fromAddress : String := ""
  toAddress : String := ""
  value : String := ""
  gas : String := ""
  gasPrice : String := ""
  isError : String := ""
  txReceiptStatus : String := ""
  input : String := ""
  contractAddress : String := ""
  cumulativeGasUsed : String := ""
  gasUsed : String := ""
  confirmations : String := ""
  methodId : String := ""
  functionName : String := ""
  deriving DecidableEq, Repr, Inhabited

/-- providers.EtherscanInternalTx. -/
structure EtherscanInternalTx where
  blockNumber : String := ""
  timeStamp : String := ""
  hash : String := ""
  fromAddress : String := ""
  toAddress : String := ""
  value : String := ""
  contractAddress : String := ""
  input : String := ""
  type : String := ""
  gas : String := ""
  gasUsed : String := ""
  traceId : String := ""
  isError : String := ""
  errCode : String := ""
  deriving DecidableEq, Repr, Inhabited

/-- providers.EtherscanTokenTx (shared by ERC-20, ERC-721 and ERC-1155). -/
structure EtherscanTokenTx where
  blockNumber : String := ""
  timeStamp : String := ""
  hash : String := ""
  nonce : String := ""
  blockHash : String := ""
  fromAddress : String := ""
  contractAddress : String := ""
  toAddress : String := ""
  value : String := ""
  tokenName : String := ""
  tokenSymbol : String := ""
  tokenDecimal : String := ""
  transactionIndex : String := ""
  gas : String := ""
  gasPrice : String := ""
  gasUsed : String := ""
  cumulativeGasUsed : String := ""
  input : String := ""
  confirmations : String := ""
  isError : String := ""
  txReceiptStatus : String := ""
  tokenID : String := ""
  tokenValue : String := ""
  deriving DecidableEq, Repr, Inhabited

/- ===================== pkg/providers/normalizer.go ===================== -/

/-- providers.parseUint64: strconv.ParseUint with the error discarded. -/
def parseUint64 (s : String) : ℕ := (parseUintGo s).1

/-- providers.parseTimestamp: strconv.ParseInt with the error discarded,
then time.Unix(ts, 0), modelled by the seconds value. -/
def parseTimestamp (s : String) : ℤ := (parseIntGo s).1

/-- providers.weiToETH: big.Rat division by 10^18 followed by a float64
round trip and shortest formatting.  (big.Int.SetString leaves the value
unspecified on a malformed string and the code discards the ok flag; the
embedding uses 0 there.  All claims evaluate it on digit strings only,
where the parse succeeds.) -/
def weiToETH (weiStr : String) : String :=
  if weiStr = "" ∨ weiStr = "0" then "0"
  else
    let wei := (decDigitsVal? weiStr).getD 0
    ratToGoFloatString ((Q.ofNat wei).div (Q.ofNat (10 ^ 18)))

/-- providers.calculateGasFeeETH: full-width big.Int multiplication of
gasUsed * gasPrice, division by 10^18 as a big.Rat, then the same float64
round trip and shortest formatting as weiToETH. -/
def calculateGasFeeETH (gasUsedStr gasPriceStr : String) : String :=
  let gasUsed := (decDigitsVal? gasUsedStr).getD 0
  let gasPrice := (decDigitsVal? gasPriceStr).getD 0
  let totalFeeWei := gasUsed * gasPrice
  ratToGoFloatString ((Q.ofNat totalFeeWei).div (Q.ofNat (10 ^ 18)))

/-- int64(math.Pow(10, float64(d))): 0 for d < 0 (the float value is below
1), exactly 10^d for 0 ≤ d ≤ 18, and an implementation-defined sentinel
(amd64: math.MinInt64) once 10^d exceeds the int64 range. -/
def mathPow10Int (d : ℤ) : ℤ :=
  if d < 0 then 0
  else if d ≤ 18 then (10 : ℤ) ^ d.toNat
  else -(2 ^ 63)

/-- providers.adjustForDecimals.  For decimals = 0 the big.Int value is
returned verbatim (val.String()); otherwise the value is divided by
int64(math.Pow(10, decimals)) as a big.Rat and float64-formatted.  When
that divisor is 0 (any negative decimals), big.Rat.Quo hits a
division-by-zero run-time panic, modelled as none. -/
def adjustForDecimals (valueStr : String) (decimals : ℤ) : Option String :=
  if valueStr = "" ∨ valueStr = "0" then some "0"
  else
    let val := (decDigitsVal? valueStr).getD 0
    if decimals = 0 then some (Nat.repr val)
    else
      let divisor := mathPow10Int decimals
      if divisor = 0 then none
      else some (ratToGoFloatString ((Q.ofNat val).div (Q.ofInt divisor)))

/-- providers.EtherscanNormalizer.NormalizeNormalTx.  The Go function has a
single return statement producing a non-nil Transaction and a nil error. -/
def NormalizeNormalTx (tx : EtherscanNormalTx) : Option Transaction × Option GoErr :=
  (some
    { hash := tx.hash
      timestamp := parseTimestamp tx.timeStamp
      fromAddress := tx.fromAddress
      toAddress := tx.toAddress
      type := .ethTransfer
      amount := weiToETH tx.value
      gasFeeETH := calculateGasFeeETH tx.gasUsed tx.gasPrice
      blockNumber := parseUint64 tx.blockNumber
      gasUsed := parseUint64 tx.gasUsed
      gasPrice := tx.gasPrice
      transactionFee := tx.gasUsed
      isError := tx.isError = "1"
      input := tx.input
      methodID := tx.methodId
      functionName := tx.functionName }, none)

/-- providers.EtherscanNormalizer.NormalizeInternalTx. -/
def NormalizeInternalTx (tx : EtherscanInternalTx) : Option Transaction × Option GoErr :=
  (some
    { hash := tx.hash
      timestamp := parseTimestamp tx.timeStamp
      fromAddress := tx.fromAddress
      toAddress := tx.toAddress
      type := .internalTx
      amount := weiToETH tx.value
      blockNumber := parseUint64 tx.blockNumber
      gasUsed := parseUint64 tx.gasUsed
      isError := tx.isError = "1"
      input := tx.input }, none)

/-- providers.EtherscanNormalizer.NormalizeERC20Tx.  The strconv.Atoi error
on the token-decimal field is discarded, so a malformed field yields
decimals = 0.  The outer Option models the division-by-zero panic that
adjustForDecimals hits when the parsed decimals are negative; every
non-panicking path returns a non-nil Transaction and a nil error. -/
def NormalizeERC20Tx (tx : EtherscanTokenTx) :
    Option (Option Transaction × Option GoErr) :=
  let decimals := (parseIntGo tx.tokenDecimal).1
  match adjustForDecimals tx.value decimals with
  | none => none
  | some amount =>
    some (some
      { hash := tx.hash
        timestamp := parseTimestamp tx.timeStamp
        fromAddress := tx.fromAddress
        toAddress := tx.toAddress
        type := .erc20Transfer
        assetContractAddress := tx.contractAddress
        assetSymbol := tx.tokenSymbol
        amount := amount
        gasFeeETH := calculateGasFeeETH tx.gasUsed tx.gasPrice
        blockNumber := parseUint64 tx.blockNumber
        gasUsed := parseUint64 tx.gasUsed
        gasPrice := tx.gasPrice
        isError := tx.isError = "1"
        decimals := decimals }, none)

/-- providers.EtherscanNormalizer.NormalizeERC721Tx: the amount is the
literal "1". -/
def NormalizeERC721Tx (tx : EtherscanTokenTx) : Option Transaction × Option GoErr :=
  (some
    { hash := tx.hash
      timestamp := parseTimestamp tx.timeStamp
      fromAddress := tx.fromAddress
      toAddress := tx.toAddress
      type := .erc721Transfer
      assetContractAddress := tx.contractAddress
      assetSymbol := tx.tokenSymbol
      tokenID := tx.tokenID
      amount := "1"
      gasFeeETH := calculateGasFeeETH tx.gasUsed tx.gasPrice
      blockNumber := parseUint64 tx.blockNumber
      gasUsed := parseUint64 tx.gasUsed
      gasPrice := tx.gasPrice
      isError := tx.isError = "1" }, none)

/-- providers.EtherscanNormalizer.NormalizeERC1155Tx: amount is TokenValue,
falling back to Value when TokenValue is empty. -/
def NormalizeERC1155Tx (tx : EtherscanTokenTx) : Option Transaction × Option GoErr :=
  let amount := if tx.tokenValue = "" then tx.value else tx.tokenValue
  (some
    { hash := tx.hash
      timestamp := parseTimestamp tx.timeStamp
      fromAddress := tx.fromAddress
      toAddress := tx.toAddress
      type := .erc1155Transfer
      assetContractAddress := tx.contractAddress
      assetSymbol := tx.tokenSymbol
      tokenID := tx.tokenID
      amount := amount
      gasFeeETH := calculateGasFeeETH tx.gasUsed tx.gasPrice
      blockNumber := parseUint64 tx.blockNumber
      gasUsed := parseUint64 tx.gasUsed
      gasPrice := tx.gasPrice
      isError := tx.isError = "1" }, none)

/- ===================== internal/normalize (second normalizer) ============== -/

/-- normalize.NormalizedTx (internal/normalize). -/
structure NormalizedTx where
  hash : String := ""
  timestamp : ℤ := 0
  fromAddress : String := ""
  toAddress : String := ""
  type : String := ""
  contractAddress : String := ""
  assetSymbol : String := ""
  tokenID : String := ""
  amount : String := ""
  gasFeeEth : String := ""
  deriving DecidableEq, Repr, Inhabited

/-- etherscan.TokenTx as consumed by internal/normalize (the fields the
normalizer reads). -/
structure TokenTx011 where
  blockNumber : String := ""
  timeStamp : String := ""
  hash : String := ""
  fromAddress : String := ""
  toAddress : String := ""
  value : String := ""
  tokenName : String := ""
  tokenSymbol : String := ""
  tokenDecimal : String := ""
  contractAddress : String := ""
  tokenID : String := ""
  tokenValue : String := ""
  gas : String := ""
  gasPrice : String := ""
  gasUsed : String := ""
  deriving DecidableEq, Repr, Inhabited

/-- normalize.parseTimestamp: strconv.ParseInt with the error propagated. -/
def parseTimestamp011 (s : String) : Option ℤ :=
  let r := parseIntGo s
  if r.2 then some r.1 else none

/-- Precision big.Float.SetInt assigns to an integer: the larger of the bit
length and 64. -/
def precOfNat (n : ℕ) : ℕ := max 64 (lenInBase 2 8000 n)

/-- big.Float.Text('f', d) on a nonnegative value: fixed-point rendering
with exactly d fractional digits; math/big's decimal rounding rounds a tie
(next digit exactly 5, nothing after) up. -/
def bigFloatTextF (q : Q) (d : ℕ) : String :=
  let s := q.mul (Q.ofNat (10 ^ d))
  let n := ((2 * s.num + s.den).fdiv (2 * s.den)).toNat
  if d = 0 then Nat.repr n
  else
    let ip := n / 10 ^ d
    let fp := n % 10 ^ d
    let ds := Nat.repr fp
    Nat.repr ip ++ "." ++ String.mk (List.replicate (d - ds.data.length) '0' ++ ds.data)

/-- normalize.weiToETH (internal/normalize): big.Float division at the
precision big.Float assigns, rendered with exactly 18 decimal places. -/
def weiToETH011 (weiStr : String) : String :=
  if weiStr = "" ∨ weiStr = "0" then "0"
  else
    match decDigitsVal? weiStr with
    | none => "0"
    | some wei =>
      let prec := max (precOfNat wei) (precOfNat (10 ^ 18))
      bigFloatTextF (roundSigBits prec ((Q.ofNat wei).div (Q.ofNat (10 ^ 18)))) 18

/-- normalize.calculateGasFeeETH (internal/normalize): both operands through
strconv.ParseUint, "0" on any parse error, big.Int multiplication, then
weiToETH. -/
def calculateGasFeeETH011 (gasUsedStr gasPriceStr : String) : String :=
  let gu := parseUintGo gasUsedStr
  let gp := parseUintGo gasPriceStr
  if gu.2 = false ∨ gp.2 = false then "0"
  else weiToETH011 (Nat.repr (gu.1 * gp.1))

/-- normalize.adjustForDecimals (internal/normalize): value returned
verbatim for decimals ≤ 0, otherwise big.Float division rendered with
exactly `decimals` fractional digits. -/
def adjustForDecimals011 (valueStr : String) (decimals : ℤ) : String :=
  if valueStr = "" ∨ valueStr = "0" then "0"
  else
    match decDigitsVal? valueStr with
    | none => "0"
    | some value =>
      if decimals ≤ 0 then Nat.repr value
      else
        let divisor := 10 ^ decimals.toNat
        let prec := max (precOfNat value) (precOfNat divisor)
        bigFloatTextF (roundSigBits prec ((Q.ofNat value).div (Q.ofNat divisor)))
          decimals.toNat

/-- normalize.normalizeERC20Tx (internal/normalize): fails closed, with a
normalization error, when the timestamp or the token-decimal field does not
parse; the zero NormalizedTx accompanies the error, as in Go. -/
def normalizeERC20Tx011 (tx : TokenTx011) : NormalizedTx × Option GoErr :=
  match parseTimestamp011 tx.timeStamp with
  | none => ({}, some "invalid timestamp")
  | some ts =>
    let dec := parseIntGo tx.tokenDecimal
    if dec.2 = false then ({}, some "invalid token decimals")
    else
      ({ hash := tx.hash
         timestamp := ts
         fromAddress := tx.fromAddress
         toAddress := tx.toAddress
         type := "ERC-20"
         contractAddress := tx.contractAddress
         assetSymbol := tx.tokenSymbol
         tokenID := ""
         amount := adjustForDecimals011 tx.value dec.1
         gasFeeEth := calculateGasFeeETH011 tx.gasUsed tx.gasPrice }, none)

/- ============ providers.NormalizationStats and the typed worker pool ======== -/

/-- providers.NormalizationStats. -/
structure NormalizationStats where
  totalProcessed : ℕ := 0
  successCount : ℕ := 0
  errorCount : ℕ := 0
  errors : List GoErr := []
  deriving DecidableEq, Repr, Inhabited

/-- One item processed under the stats mutex of normalizeWorkerPoolTyped:
TotalProcessed always increments; an error increments ErrorCount and is
recorded; otherwise a non-nil result increments SuccessCount (and is sent);
a nil result with a nil error increments nothing further. -/
def poolStep (stats : NormalizationStats) (r : Option Transaction × Option GoErr) :
    NormalizationStats :=
  let s := { stats with totalProcessed := stats.totalProcessed + 1 }
  match r.2 with
  | some e =>
    { s with errorCount := s.errorCount + 1
             errors := s.errors ++ ["normalization failed: " ++ e] }
  | none =>
    match r.1 with
    | some _ => { s with successCount := s.successCount + 1 }
    | none => s

/-- The statistics a complete (uncancelled) run of normalizeWorkerPoolTyped
produces over its input slice.  The workers update the shared stats under a
mutex, one full update per dequeued item, and every item is dequeued exactly
once, so the resulting counters equal this fold in every interleaving. -/
def normalizeWorkerPoolTypedStats {T : Type}
    (normalizeFunc : T → Option Transaction × Option GoErr) (items : List T) :
    NormalizationStats :=
  items.foldl (fun st item => poolStep st (normalizeFunc item)) {}

/- ============ ParallelFetcher (part_003, stats variant) ===================== -/

/-- providers.TransactionType (the fetcher's category enum). -/
inductive TxCategory where
  | normal
  | internalCat
  | token
  | nft
  | erc1155
  deriving DecidableEq, Repr, Inhabited

/-- TransactionType.String(). -/
def txCategoryString : TxCategory → String
  | .normal => "Normal"
  | .internalCat => "Internal"
  | .token => "ERC-20"
  | .nft => "ERC-721"
  | .erc1155 => "ERC-1155"

/-- providers.FetchTypeResult.  A nil Txs slice is none (a category that
normalized nothing never appends and leaves the slice nil). -/
structure FetchTypeResult where
  txType : TxCategory
  txs : Option (List Transaction) := none
  err : Option GoErr := none
  count : ℕ := 0
  stats : NormalizationStats := {}
  deriving Repr, Inhabited

/-- The normalize-and-count loop shared by the five
fetchXxxTransactionsConcurrent helpers of the stats-tracking
ParallelFetcher: TotalProcessed++ per record, errors counted and recorded,
non-nil results counted and appended. -/
def categoryStep {T : Type} (normalizeFunc : T → Option Transaction × Option GoErr)
    (msg : String) (acc : List Transaction × NormalizationStats) (item : T) :
    List Transaction × NormalizationStats :=
  let r := normalizeFunc item
  let st := { acc.2 with totalProcessed := acc.2.totalProcessed + 1 }
  match r.2 with
  | some e =>
    (acc.1, { st with errorCount := st.errorCount + 1
                      errors := st.errors ++ [msg ++ e] })
  | none =>
    match r.1 with
    | some tx => (acc.1 ++ [tx], { st with successCount := st.successCount + 1 })
    | none => (acc.1, st)

def categoryFold {T : Type} (normalizeFunc : T → Option Transaction × Option GoErr)
    (msg : String) (items : List T) : List Transaction × NormalizationStats :=
  items.foldl (categoryStep normalizeFunc msg) ([], {})

/-- fetchNormalTransactionsConcurrent (stats variant), as a function of the
provider call's outcome. -/
def fetchNormalTransactionsConcurrent
    (outcome : Except GoErr (List EtherscanNormalTx)) : FetchTypeResult :=
  match outcome with
  | .error e => { txType := .normal, err := some e }
  | .ok rawTxs =>
    let r := categoryFold NormalizeNormalTx "failed to normalize normal transaction: " rawTxs
    { txType := .normal
      txs := if r.1.isEmpty then none else some r.1
      count := r.1.length
      stats := r.2 }

/-- The result-collection loop of FetchAllTransactionsParallel: failed
categories contribute a wrapped error, successful categories with a non-nil
Txs slice contribute their transactions, in arrival order. -/
def collectStep (acc : List Transaction × List GoErr) (r : FetchTypeResult) :
    List Transaction × List GoErr :=
  match r.err with
  | some e => (acc.1, acc.2 ++ [txCategoryString r.txType ++ " fetch failed: " ++ e])
  | none =>
    match r.txs with
    | some txs => (acc.1 ++ txs, acc.2)
    | none => acc

def collectResults (arrived : List FetchTypeResult) : List Transaction × List GoErr :=
  arrived.foldl collectStep ([], [])

/- ============ Go 1.24 sort.Sort: pattern-defeating quicksort ================ -/

/-- Element read, with the slice's default past the end (the algorithm never
reads out of range). -/
def lget {α : Type} [Inhabited α] (l : List α) (i : ℕ) : α := l.getD i default

/-- data.Swap(i, j).  Go panics out of range; the algorithm never swaps out
of range, and the embedding leaves the list unchanged there, which keeps
every swap a permutation. -/
def lswap {α : Type} [Inhabited α] (l : List α) (i j : ℕ) : List α :=
  if i < l.length ∧ j < l.length then (l.set i (lget l j)).set j (lget l i) else l

variable {α : Type} [Inhabited α]

/-- Inner loop of sort.insertionSort: bubble the element at j left while it
is less than its left neighbour, not moving past a (structural in j; at
j = 0 Go's j > a guard fails, matching the base case). -/
def insertionSortInner (less : α → α → Bool) (a : ℕ) : ℕ → List α → List α
  | 0, l => l
  | j + 1, l =>
    if a < j + 1 ∧ less (lget l (j + 1)) (lget l j) then
      insertionSortInner less a j (lswap l (j + 1) j)
    else l

/-- Outer loop of sort.insertionSort over i = a+1 .. b-1.  The fuel is
structural; b - i more steps always suffice. -/
def insertionSortOuter (less : α → α → Bool) (b : ℕ) (a : ℕ) : ℕ → ℕ → List α → List α
  | 0, _, l => l
  | fuel + 1, i, l =>
    if i < b then insertionSortOuter less b a fuel (i + 1) (insertionSortInner less a i l)
    else l

/-- sort.insertionSort(data, a, b): sorts data[a:b]. -/
def insertionSortGo (less : α → α → Bool) (l : List α) (a b : ℕ) : List α :=
  insertionSortOuter less b a (b + 1) (a + 1) l

/-- sort.siftDown: implements the heap property on data[lo:hi] rooted at lo;
first is an offset into the slice.  Fuel-structural: the root at least
doubles each step, so hi + 1 steps always suffice. -/
def siftDownGo (less : α → α → Bool) (hi first : ℕ) : ℕ → ℕ → List α → List α
  | 0, _, l => l
  | fuel + 1, root, l =>
    let child := 2 * root + 1
    if child < hi then
      let child2 :=
        if child + 1 < hi ∧ less (lget l (first + child)) (lget l (first + child + 1)) then
          child + 1
        else child
      if ¬(less (lget l (first + root)) (lget l (first + child2)) = true) then l
      else siftDownGo less hi first fuel child2 (lswap l (first + root) (first + child2))
    else l

/-- The heap-construction loop of sort.heapSort: siftDown for i = j, j-1,
..., 0. -/
def heapBuildAux (less : α → α → Bool) (hi first : ℕ) : ℕ → List α → List α
  | 0, l => siftDownGo less hi first (hi + 1) 0 l
  | j + 1, l => heapBuildAux less hi first j (siftDownGo less hi first (hi + 1) (j + 1) l)

/-- The pop loop of sort.heapSort: for i = k, ..., 0, swap the max to the
end and restore the heap on the prefix. -/
def heapPopAux (less : α → α → Bool) (first : ℕ) : ℕ → List α → List α
  | 0, l => siftDownGo less 0 first 1 0 (lswap l first first)
  | i + 1, l =>
    heapPopAux less first i
      (siftDownGo less (i + 1) first (i + 2) 0 (lswap l first (first + (i + 1))))

/-- sort.heapSort(data, a, b). -/
def heapSortGo (less : α → α → Bool) (l : List α) (a b : ℕ) : List α :=
  let first := a
  let hi := b - a
  let l1 := heapBuildAux less hi first ((hi - 1) / 2) l
  if hi = 0 then l1 else heapPopAux less first (hi - 1) l1

/-- The swap loop of sort.reverseRange, fuel-structural. -/
def reverseRangeAux : ℕ → ℕ → ℕ → List α → List α
  | 0, _, _, l => l
  | fuel + 1, i, j, l => if i < j then reverseRangeAux fuel (i + 1) (j - 1) (lswap l i j) else l

/-- sort.reverseRange(data, a, b). -/
def reverseRangeGo (l : List α) (a b : ℕ) : List α :=
  reverseRangeAux (b + 1) a (b - 1) l

/-- sort.order2: order two indices by the data they point to, counting
swaps. -/
def order2Go (less : α → α → Bool) (l : List α) (a b swaps : ℕ) : ℕ × ℕ × ℕ :=
  if less (lget l b) (lget l a) then (b, a, swaps + 1) else (a, b, swaps)

/-- sort.median: index of the median of three, counting swaps. -/
def medianGo (less : α → α → Bool) (l : List α) (a b c swaps : ℕ) : ℕ × ℕ :=
  let r1 := order2Go less l a b swaps
  let r2 := order2Go less l r1.2.1 c r1.2.2
  let r3 := order2Go less l r1.1 r2.1 r2.2.2
  (r3.2.1, r3.2.2)

/-- sort.medianAdjacent: median of data[a-1], data[a], data[a+1]. -/
def medianAdjacentGo (less : α → α → Bool) (l : List α) (a swaps : ℕ) : ℕ × ℕ :=
  medianGo less l (a - 1) a (a + 1) swaps

/-- The sortedness hints of sort.choosePivot. -/
inductive SortedHint where
  | increasing
  | decreasing
  | unknown
  deriving DecidableEq, Repr, Inhabited

/-- swaps-count to hint: 0 means increasing, maxSwaps = 12 means
decreasing. -/
def hintOf (s : ℕ) : SortedHint :=
  if s = 0 then .increasing else if s = 12 then .decreasing else .unknown

/-- sort.choosePivot: static for length < 8, median of three for
8 ≤ length < 50, Tukey ninther beyond. -/
def choosePivotGo (less : α → α → Bool) (l : List α) (a b : ℕ) : ℕ × SortedHint :=
  let len := b - a
  let i := a + len / 4 * 1
  let j := a + len / 4 * 2
  let k := a + len / 4 * 3
  if 8 ≤ len then
    if 50 ≤ len then
      let r1 := medianAdjacentGo less l i 0
      let r2 := medianAdjacentGo less l j r1.2
      let r3 := medianAdjacentGo less l k r2.2
      let r4 := medianGo less l r1.1 r2.1 r3.1 r3.2
      (r4.1, hintOf r4.2)
    else
      let r := medianGo less l i j k 0
      (r.1, hintOf r.2)
  else (j, hintOf 0)

/-- The i-advancing scan of sort.partition: skip elements less than the
pivot at a.  Fuel bounds the walk; every executed call has enough. -/
def scanUpGo (less : α → α → Bool) (l : List α) (a : ℕ) : ℕ → ℕ → ℕ → ℕ
  | 0, i, _ => i
  | fuel + 1, i, j =>
    if i ≤ j ∧ less (lget l i) (lget l a) then scanUpGo less l a fuel (i + 1) j else i

/-- The j-descending scan of sort.partition: skip elements not less than
the pivot at a. -/
def scanDownGo (less : α → α → Bool) (l : List α) (a : ℕ) : ℕ → ℕ → ℕ → ℕ
  | 0, _, j => j
  | fuel + 1, i, j =>
    if i ≤ j ∧ ¬(less (lget l j) (lget l a) = true) then scanDownGo less l a fuel i (j - 1)
    else j

/-- The main exchange loop of sort.partition. -/
def partitionMainGo (less : α → α → Bool) (a b : ℕ) : ℕ → List α → ℕ → ℕ → List α × ℕ
  | 0, l, _, j => (l, j)
  | fuel + 1, l, i, j =>
    let i2 := scanUpGo less l a (b + 1) i j
    let j2 := scanDownGo less l a (b + 1) i2 j
    if i2 > j2 then (l, j2)
    else partitionMainGo less a b fuel (lswap l i2 j2) (i2 + 1) (j2 - 1)

/-- sort.partition(data, a, b, pivot): Hoare partition against the pivot
moved to position a; returns (data, newpivot, alreadyPartitioned). -/
def partitionGo (less : α → α → Bool) (l : List α) (a b pivot : ℕ) :
    List α × ℕ × Bool :=
  let l0 := lswap l a pivot
  let i1 := scanUpGo less l0 a (b + 1) (a + 1) (b - 1)
  let j1 := scanDownGo less l0 a (b + 1) i1 (b - 1)
  if i1 > j1 then (lswap l0 j1 a, j1, true)
  else
    let r := partitionMainGo less a b (b + 1) (lswap l0 i1 j1) (i1 + 1) (j1 - 1)
    (lswap r.1 r.2 a, r.2, false)

/-- The i-advancing scan of sort.partitionEqual: skip elements not greater
than the pivot at a. -/
def scanUpEqGo (less : α → α → Bool) (l : List α) (a : ℕ) : ℕ → ℕ → ℕ → ℕ
  | 0, i, _ => i
  | fuel + 1, i, j =>
    if i ≤ j ∧ ¬(less (lget l a) (lget l i) = true) then scanUpEqGo less l a fuel (i + 1) j
    else i

/-- The j-descending scan of sort.partitionEqual: skip elements greater
than the pivot at a. -/
def scanDownEqGo (less : α → α → Bool) (l : List α) (a : ℕ) : ℕ → ℕ → ℕ → ℕ
  | 0, _, j => j
  | fuel + 1, i, j =>
    if i ≤ j ∧ less (lget l a) (lget l j) then scanDownEqGo less l a fuel i (j - 1) else j

/-- The exchange loop of sort.partitionEqual; returns (data, i). -/
def partitionEqualMainGo (less : α → α → Bool) (a b : ℕ) : ℕ → List α → ℕ → ℕ → List α × ℕ
  | 0, l, i, _ => (l, i)
  | fuel + 1, l, i, j =>
    let i2 := scanUpEqGo less l a (b + 1) i j
    let j2 := scanDownEqGo less l a (b + 1) i2 j
    if i2 > j2 then (l, i2)
    else partitionEqualMainGo less a b fuel (lswap l i2 j2) (i2 + 1) (j2 - 1)

/-- sort.partitionEqual(data, a, b, pivot): partitions data[a:b] into
elements equal to and greater than the pivot; returns (data, newpivot). -/
def partitionEqualGo (less : α → α → Bool) (l : List α) (a b pivot : ℕ) :
    List α × ℕ :=
  let l0 := lswap l a pivot
  partitionEqualMainGo less a b (b + 1) l0 (a + 1) (b - 1)

/-- The left-shift loop inside sort.partialInsertionSort (structural in j;
Go's j ≥ 1 guard fails at 0, matching the base case). -/
def shiftLeftLoopGo (less : α → α → Bool) : ℕ → List α → List α
  | 0, l => l
  | j + 1, l =>
    if less (lget l (j + 1)) (lget l j) then shiftLeftLoopGo less j (lswap l (j + 1) j)
    else l

/-- The right-shift loop inside sort.partialInsertionSort, fuel-structural. -/
def shiftRightLoopGo (less : α → α → Bool) (b : ℕ) : ℕ → ℕ → List α → List α
  | 0, _, l => l
  | fuel + 1, j, l =>
    if j < b ∧ less (lget l j) (lget l (j - 1)) then
      shiftRightLoopGo less b fuel (j + 1) (lswap l j (j - 1))
    else l

/-- The i-advancing sortedness scan of sort.partialInsertionSort. -/
def partSortScanGo (less : α → α → Bool) (l : List α) (b : ℕ) : ℕ → ℕ → ℕ
  | 0, i => i
  | fuel + 1, i =>
    if i < b ∧ ¬(less (lget l i) (lget l (i - 1)) = true) then
      partSortScanGo less l b fuel (i + 1)
    else i

/-- sort.partialInsertionSort(data, a, b): up to maxSteps = 5 adjacent
corrections; only attempts shifts when b - a ≥ shortestShifting = 50.
Returns (data, sortedAtEnd). -/
def partInsertionSortGo (less : α → α → Bool) (l : List α) (a b : ℕ) :
    List α × Bool :=
  go 5 l (a + 1)
where
  go : ℕ → List α → ℕ → List α × Bool
    | 0, l, _ => (l, false)
    | steps + 1, l, i =>
      let i2 := partSortScanGo less l b (b + 1) i
      if i2 = b then (l, true)
      else if b - a < 50 then (l, false)
      else
        let l1 := lswap l i2 (i2 - 1)
        let l2 := if 2 ≤ i2 - a then shiftLeftLoopGo less (i2 - 1) l1 else l1
        let l3 := if 2 ≤ b - i2 then shiftRightLoopGo less b (b + 1) (i2 + 1) l2 else l2
        go steps l3 i2

/-- The xorshift random generator of package sort. -/
def xorshiftNext (r : ℕ) : ℕ :=
  let r1 := (r ^^^ (r <<< 13)) % 2 ^ 64
  let r2 := (r1 ^^^ (r1 >>> 7)) % 2 ^ 64
  (r2 ^^^ (r2 <<< 17)) % 2 ^ 64

/-- sort.breakPatterns: scatter three elements chosen by xorshift, for
ranges of length ≥ 8. -/
def breakPatternsGo (l : List α) (a b : ℕ) : List α :=
  let length := b - a
  if 8 ≤ length then
    let modulus := 2 ^ lenInBase 2 8000 length
    let idx := a + length / 4 * 2 - 1
    let r1 := xorshiftNext length
    let o1 := let o := r1 % modulus; if length ≤ o then o - length else o
    let l1 := lswap l (idx - 1) (a + o1)
    let r2 := xorshiftNext r1
    let o2 := let o := r2 % modulus; if length ≤ o then o - length else o
    let l2 := lswap l1 idx (a + o2)
    let r3 := xorshiftNext r2
    let o3 := let o := r3 % modulus; if length ≤ o then o - length else o
    lswap l2 (idx + 1) (a + o3)
  else l

/-- sort.pdqsort(data, a, b, limit), with explicit fuel for the outer
iterate-on-the-longer-side loop; fuel b - a always suffices because each
iteration strictly shrinks the range. -/
def pdqsortGo (less : α → α → Bool) :
    ℕ → List α → ℕ → ℕ → ℕ → Bool → Bool → List α
  | 0, l, _, _, _, _, _ => l
  | fuel + 1, l, a, b, limit, wasBalanced, wasPartitioned =>
    let length := b - a
    if length ≤ 12 then insertionSortGo less l a b
    else if limit = 0 then heapSortGo less l a b
    else
      let l1 := if ¬wasBalanced then breakPatternsGo l a b else l
      let limit1 := if ¬wasBalanced then limit - 1 else limit
      let pv := choosePivotGo less l1 a b
      let l2 := if pv.2 = .decreasing then reverseRangeGo l1 a b else l1
      let pivot := if pv.2 = .decreasing then (b - 1) - (pv.1 - a) else pv.1
      let hint := if pv.2 = .decreasing then SortedHint.increasing else pv.2
      let afterPartial :=
        if wasBalanced ∧ wasPartitioned ∧ hint = .increasing then
          partInsertionSortGo less l2 a b
        else (l2, false)
      if afterPartial.2 then afterPartial.1
      else
        let l3 := afterPartial.1
        if 0 < a ∧ ¬(less (lget l3 (a - 1)) (lget l3 pivot) = true) then
          let r := partitionEqualGo less l3 a b pivot
          pdqsortGo less fuel r.1 r.2 b limit1 wasBalanced wasPartitioned
        else
          let r := partitionGo less l3 a b pivot
          let mid := r.2.1
          let newWasPartitioned := r.2.2
          let leftLen := mid - a
          let rightLen := b - mid
          let newWasBalanced := decide (length / 8 ≤ min leftLen rightLen)
          if leftLen < rightLen then
            let l4 := pdqsortGo less fuel r.1 a mid limit1 newWasBalanced newWasPartitioned
            pdqsortGo less fuel l4 (mid + 1) b limit1 newWasBalanced newWasPartitioned
          else
            let l4 := pdqsortGo less fuel r.1 (mid + 1) b limit1 newWasBalanced newWasPartitioned
            pdqsortGo less fuel l4 a mid limit1 newWasBalanced newWasPartitioned

/-- sort.Sort for Go 1.19+ (the Go version pinned by the repository is
1.24): nothing for n ≤ 1, otherwise pdqsort with limit = bits.Len(n). -/
def sortGo (less : α → α → Bool) (l : List α) : List α :=
  let n := l.length
  if n ≤ 1 then l else pdqsortGo less n l 0 n (lenInBase 2 8000 n) true true

/-- sort.Sort(models.TransactionList(txs)). -/
def sortTransactions (l : List Transaction) : List Transaction :=
  sortGo transactionLess l

/- ============ FetchAllTransactionsParallel, both variants =================== -/

/-- FetchAllTransactionsParallel (stats-tracking variant): collect the five
category results in arrival order, fail as a whole only when all five
failed, sort, and accompany partial failures with a combined error.  The
returned list models the allTransactions slice (empty = nil). -/
def fetchAllTransactionsParallel (arrived : List FetchTypeResult) :
    List Transaction × Option GoErr :=
  let c := collectResults arrived
  if c.2.length = 5 then
    ([], some ("all transaction fetches failed: " ++ String.intercalate "; " c.2))
  else
    let sorted := if 0 < c.1.length then sortTransactions c.1 else c.1
    if 0 < c.2.length then
      (sorted, some ("partial fetch failures occurred: " ++ String.intercalate "; " c.2))
    else (sorted, none)

/-- FetchAllTransactionsParallel (legacy variant, part_004): identical
collection and all-failed check, but partial failures are returned with a
nil error. -/
def fetchAllTransactionsParallelLegacy (arrived : List FetchTypeResult) :
    List Transaction × Option GoErr :=
  let c := collectResults arrived
  if c.2.length = 5 then
    ([], some ("all transaction fetches failed: " ++ String.intercalate "; " c.2))
  else
    (if 0 < c.1.length then sortTransactions c.1 else c.1, none)

end CT

namespace CT

/-- Equality of the merge/sort key (block number, confirmation timestamp). -/
def sameKey (x y : Transaction) : Bool :=
  decide (x.blockNumber = y.blockNumber) && decide (x.timestamp = y.timestamp)

end CT

open CT

/- ===================== concrete fixtures for the claims ===================== -/

/-- A native-transfer record with the given wei value (the other fields are
the shape of the repository's own test fixtures). -/
def nativeTx (v : String) : EtherscanNormalTx :=
  { value := v, gasUsed := "21000", gasPrice := "50000000000",
    blockNumber := "100", timeStamp := "1700000000", hash := "0xaaa",
    fromAddress := "0xfrom", toAddress := "0xto", isError := "0" }

/-- An ERC-20 record whose token-decimal field is not a decimal numeral. -/
def erc20BadDecimalsTx : EtherscanTokenTx :=
  { value := "5000000000000000000", tokenDecimal := "18x",
    timeStamp := "1700000000", blockNumber := "100", hash := "0xbbb",
    gasUsed := "80000", gasPrice := "55000000000", tokenSymbol := "TOK" }

/-- The same record as seen by the internal/normalize path. -/
def erc20BadDecimalsTx011 : TokenTx011 :=
  { value := "5000000000000000000", tokenDecimal := "18x",
    timeStamp := "1700000000", blockNumber := "100", hash := "0xbbb",
    gasUsed := "80000", gasPrice := "55000000000", tokenSymbol := "TOK" }

/-- An ERC-20 record whose token-decimal field parses to a negative
number. -/
def erc20NegDecimalsTx : EtherscanTokenTx :=
  { value := "2", tokenDecimal := "-1", timeStamp := "1700000000",
    blockNumber := "100", hash := "0xccc", gasUsed := "80000",
    gasPrice := "55000000000", tokenSymbol := "TOK" }

/- ===================== C2 ===================== -/

/-- C2: counterexample.  The claim says NormalizeNormalTx renders the exact
decimal value of v / 10^18 with no float64 precision loss; at
v = 10^18 + 1 the code returns "1" while the exact rendering is
"1.000000000000000001". -/
theorem C2_counterexample :
    ((NormalizeNormalTx (nativeTx "1000000000000000001")).1.map Transaction.amount)
        = some "1"
    ∧ exactScaledDecimal 1000000000000000001 18 = "1.000000000000000001"
    ∧ ("1" : String) ≠ "1.000000000000000001" := by
  refine ⟨by decide, by decide, by decide⟩

/-- C2 (amended): NormalizeNormalTx's Amount is weiToETH of the value
field, which renders the binary64 value nearest to v / 10^18 with
shortest-round-trip formatting; this equals the exact rendering on the
spec's examples (10^18 wei and 5*10^17 wei) but not in general
(10^18 + 1 wei yields "1"). -/
theorem C2_amended :
    (∀ tx : EtherscanNormalTx,
      ((NormalizeNormalTx tx).1.map Transaction.amount) = some (weiToETH tx.value))
    ∧ weiToETH "1000000000000000000" = exactScaledDecimal 1000000000000000000 18
    ∧ weiToETH "500000000000000000" = exactScaledDecimal 500000000000000000 18
    ∧ weiToETH "1000000000000000001" = "1" := by
  refine ⟨fun tx => rfl, by decide, by decide, by decide⟩

/- ===================== C8 ===================== -/

/-- C8: counterexample.  The gas fee is computed with full-width integer
multiplication, but the quotient is then rounded through float64, so it is
not the exact rendering of gasUsed * gasPrice / 10^18 in general:
gasUsed = gasPrice = 1000000001 yields "1.000000002" while the exact
rendering is "1.000000002000000001". -/
theorem C8_counterexample :
    calculateGasFeeETH "1000000001" "1000000001" = "1.000000002"
    ∧ exactScaledDecimal (1000000001 * 1000000001) 18 = "1.000000002000000001"
    ∧ ("1.000000002" : String) ≠ "1.000000002000000001" := by
  refine ⟨by decide, by decide, by decide⟩

/-- C8 (amended): the fee is gasUsed * gasPrice multiplied at full big.Int
width and divided by 10^18, then float64-rounded and shortest-formatted;
the claim's instance gasUsed = 21000, gasPrice = 50000000000 does yield
exactly "0.00105", agreeing with the exact rendering, but exactness fails
in general (see the counterexample). -/
theorem C8_amended :
    (∀ tx : EtherscanNormalTx,
      ((NormalizeNormalTx tx).1.map Transaction.gasFeeETH)
        = some (calculateGasFeeETH tx.gasUsed tx.gasPrice))
    ∧ calculateGasFeeETH "21000" "50000000000" = "0.00105"
    ∧ exactScaledDecimal (21000 * 50000000000) 18 = "0.00105" := by
  refine ⟨fun tx => rfl, by decide, by decide⟩

/- ===================== C3 ===================== -/

/-- C3: the repository's two ERC-20 paths diverge on a non-numeric
token-decimal field.  The providers EtherscanNormalizer discards the
strconv.Atoi error and normalizes with decimals = 0, passing the raw
integer value through as the amount with a nil error; the
internal/normalize path fails closed with a normalization error, as the
claim requires. -/
theorem C3_divergence :
    ((NormalizeERC20Tx erc20BadDecimalsTx).map
        (fun r => (r.1.map Transaction.amount, r.1.map Transaction.decimals, r.2)))
      = some (some "5000000000000000000", some 0, none)
    ∧ (normalizeERC20Tx011 erc20BadDecimalsTx011).2 = some "invalid token decimals" := by
  refine ⟨by decide, by decide⟩

/- ===================== C4 ===================== -/

/-- C4: counterexample.  Not every input comes back with a non-nil
Transaction and nil error: an ERC-20 record whose token-decimal field
parses to a negative integer drives adjustForDecimals into
big.Rat.Quo's division-by-zero run-time panic (int64(math.Pow(10, d)) = 0
for d < 0), so NormalizeERC20Tx never returns at all there. -/
theorem C4_counterexample : NormalizeERC20Tx erc20NegDecimalsTx = none := by
  decide

/-- C4 (amended): four of the five EtherscanNormalizer operations return a
non-nil Transaction and a nil error on every input, and NormalizeERC20Tx
does so on every input whose token-decimal field does not parse to a
negative integer; no input ever produces a normalization error through
this interface, so the orchestrators' error-skipping branches are
unreachable, but negative parsed decimals crash with a panic instead of
an error. -/
theorem C4_amended :
    (∀ tx : EtherscanNormalTx,
      (NormalizeNormalTx tx).1.isSome ∧ (NormalizeNormalTx tx).2 = none)
    ∧ (∀ tx : EtherscanInternalTx,
      (NormalizeInternalTx tx).1.isSome ∧ (NormalizeInternalTx tx).2 = none)
    ∧ (∀ tx : EtherscanTokenTx,
      (NormalizeERC721Tx tx).1.isSome ∧ (NormalizeERC721Tx tx).2 = none)
    ∧ (∀ tx : EtherscanTokenTx,
      (NormalizeERC1155Tx tx).1.isSome ∧ (NormalizeERC1155Tx tx).2 = none)
    ∧ (∀ tx : EtherscanTokenTx, 0 ≤ (parseIntGo tx.tokenDecimal).1 →
      ((NormalizeERC20Tx tx).map (fun r => (r.1.isSome, r.2.isNone)))
        = some (true, true)) := by
  refine ⟨fun tx => ⟨rfl, rfl⟩, fun tx => ⟨rfl, rfl⟩, fun tx => ⟨rfl, rfl⟩,
    fun tx => ⟨rfl, rfl⟩, fun tx h => ?_⟩
  have hdiv : mathPow10Int (parseIntGo tx.tokenDecimal).1 ≠ 0 := by
    unfold mathPow10Int
    split
    · omega
    · split <;> positivity
  have hs : ∃ s, adjustForDecimals tx.value (parseIntGo tx.tokenDecimal).1 = some s := by
    unfold adjustForDecimals
    split
    · exact ⟨_, rfl⟩
    · dsimp only
      split <;> exact ⟨_, rfl⟩
  obtain ⟨s, hsz⟩ := hs
  unfold NormalizeERC20Tx
  simp only [hsz, Option.map_some]
  rfl

/-- C4: witness for the amended theorem's hypothesis at a concrete
record. -/
theorem C4_amended_witness :
    ((NormalizeERC20Tx erc20BadDecimalsTx).map (fun r => (r.1.isSome, r.2.isNone)))
      = some (true, true) :=
  C4_amended.2.2.2.2 erc20BadDecimalsTx (by decide)

/- ===================== C9 ===================== -/

/-- C9: for every ERC-1155 record the normalized Amount is the
transfer-quantity field (tokenValue) when it is non-empty, and only an
empty tokenValue falls back to the generic value field. -/
theorem C9_erc1155_amount (tx : EtherscanTokenTx) :
    ((NormalizeERC1155Tx tx).1.map Transaction.amount)
      = some (if tx.tokenValue ≠ "" then tx.tokenValue else tx.value) := by
  unfold NormalizeERC1155Tx
  by_cases h : tx.tokenValue = "" <;> simp [h]

/-- An ERC-1155 fixture with both quantity fields populated (shaped like
the repository's own test data). -/
def erc1155BothTx : EtherscanTokenTx :=
  { tokenValue := "50", value := "7", timeStamp := "1002", blockNumber := "102",
    tokenID := "999", tokenSymbol := "POLY", gasUsed := "150000",
    gasPrice := "65000000000" }

/-- C9: witness — tokenValue "50" is preferred over value "7". -/
theorem C9_witness :
    ((NormalizeERC1155Tx erc1155BothTx).1.map Transaction.amount) = some "50" := by
  have := C9_erc1155_amount erc1155BothTx
  simpa using this

/- ============ permutation facts about the sort embedding ================== -/

namespace CT

variable {α : Type} [Inhabited α]

/-- An in-place pass applied under a condition preserves permutation if the
pass itself does. -/
theorem itePerm {c : Prop} [Decidable c] {f : List α → List α}
    (hf : ∀ m : List α, (f m).Perm m) (m : List α) : (if c then f m else m).Perm m := by
  split
  · exact hf m
  · exact List.Perm.refl _

/-- Swapping the head with the element at j is a permutation. -/
theorem headSwap_perm (x : α) : ∀ (t : List α) (j : ℕ), j < t.length →
    (lget t j :: t.set j x).Perm (x :: t)
  | [], j, h => absurd h (by simp)
  | y :: t', 0, _ => by
    simpa [lget] using List.Perm.swap x y t'
  | y :: t', j + 1, hj => by
    simp only [lget, List.getD_cons_succ, List.set_cons_succ]
    refine List.Perm.trans (List.Perm.swap y (List.getD t' j default) (t'.set j x)) ?_
    refine List.Perm.trans ?_ (List.Perm.swap x y t')
    exact List.Perm.cons y (headSwap_perm x t' j (by simpa using hj))

/-- The double-set realizing data.Swap is a permutation. -/
theorem set_set_swap_perm : ∀ (l : List α) (i j : ℕ), i < l.length → j < l.length →
    ((l.set i (lget l j)).set j (lget l i)).Perm l
  | [], _, _, hi, _ => absurd hi (by simp)
  | x :: t, 0, 0, _, _ => by simp [lget]
  | x :: t, 0, j + 1, _, hj => by
    simpa [lget] using headSwap_perm x t j (by simpa using hj)
  | x :: t, i + 1, 0, hi, _ => by
    simpa [lget] using headSwap_perm x t i (by simpa using hi)
  | x :: t, i + 1, j + 1, hi, hj => by
    simpa [lget] using
      (set_set_swap_perm t i j (by simpa using hi) (by simpa using hj)).cons x

/-- data.Swap never changes the multiset of elements. -/
theorem lswap_perm (l : List α) (i j : ℕ) : (lswap l i j).Perm l := by
  unfold lswap
  split
  · exact set_set_swap_perm l i j (by omega) (by omega)
  · exact List.Perm.refl _

theorem insertionSortInner_perm (less : α → α → Bool) (a : ℕ) :
    ∀ (j : ℕ) (l : List α), (insertionSortInner less a j l).Perm l
  | 0, l => by simp [insertionSortInner]
  | j + 1, l => by
    unfold insertionSortInner
    split
    · exact (insertionSortInner_perm less a j _).trans (lswap_perm _ _ _)
    · exact List.Perm.refl _

theorem insertionSortOuter_perm (less : α → α → Bool) (b a : ℕ) :
    ∀ (fuel i : ℕ) (l : List α), (insertionSortOuter less b a fuel i l).Perm l
  | 0, _, l => by simp [insertionSortOuter]
  | fuel + 1, i, l => by
    unfold insertionSortOuter
    split
    · exact (insertionSortOuter_perm less b a fuel (i + 1) _).trans
        (insertionSortInner_perm less a i l)
    · exact List.Perm.refl _

theorem insertionSortGo_perm (less : α → α → Bool) (l : List α) (a b : ℕ) :
    (insertionSortGo less l a b).Perm l :=
  insertionSortOuter_perm less b a (b + 1) (a + 1) l

theorem siftDownGo_perm (less : α → α → Bool) (hi first : ℕ) :
    ∀ (fuel root : ℕ) (l : List α), (siftDownGo less hi first fuel root l).Perm l
  | 0, _, l => by simp [siftDownGo]
  | fuel + 1, root, l => by
    unfold siftDownGo
    dsimp only
    split
    · split <;> split <;>
        first
          | exact List.Perm.refl _
          | exact (siftDownGo_perm less hi first fuel _ _).trans (lswap_perm _ _ _)
    · exact List.Perm.refl _

theorem heapBuildAux_perm (less : α → α → Bool) (hi first : ℕ) :
    ∀ (j : ℕ) (l : List α), (heapBuildAux less hi first j l).Perm l
  | 0, l => siftDownGo_perm less hi first _ 0 l
  | j + 1, l =>
    (heapBuildAux_perm less hi first j _).trans (siftDownGo_perm less hi first _ (j + 1) l)

theorem heapPopAux_perm (less : α → α → Bool) (first : ℕ) :
    ∀ (i : ℕ) (l : List α), (heapPopAux less first i l).Perm l
  | 0, l => (siftDownGo_perm less 0 first 1 0 _).trans (lswap_perm _ _ _)
  | i + 1, l =>
    (heapPopAux_perm less first i _).trans
      ((siftDownGo_perm less (i + 1) first (i + 2) 0 _).trans (lswap_perm _ _ _))

theorem heapSortGo_perm (less : α → α → Bool) (l : List α) (a b : ℕ) :
    (heapSortGo less l a b).Perm l := by
  unfold heapSortGo
  dsimp only
  split
  · exact heapBuildAux_perm less _ _ _ l
  · exact (heapPopAux_perm less _ _ _).trans (heapBuildAux_perm less _ _ _ l)

theorem reverseRangeAux_perm :
    ∀ (fuel i j : ℕ) (l : List α), (reverseRangeAux fuel i j l).Perm l
  | 0, _, _, l => by simp [reverseRangeAux]
  | fuel + 1, i, j, l => by
    unfold reverseRangeAux
    split
    · exact (reverseRangeAux_perm fuel (i + 1) (j - 1) _).trans (lswap_perm _ _ _)
    · exact List.Perm.refl _

theorem reverseRangeGo_perm (l : List α) (a b : ℕ) : (reverseRangeGo l a b).Perm l :=
  reverseRangeAux_perm (b + 1) a (b - 1) l

theorem partitionMainGo_perm (less : α → α → Bool) (a b : ℕ) :
    ∀ (fuel : ℕ) (l : List α) (i j : ℕ), (partitionMainGo less a b fuel l i j).1.Perm l
  | 0, l, _, _ => by simp [partitionMainGo]
  | fuel + 1, l, i, j => by
    unfold partitionMainGo
    dsimp only
    split
    · exact List.Perm.refl _
    · exact (partitionMainGo_perm less a b fuel _ _ _).trans (lswap_perm _ _ _)

theorem partitionGo_perm (less : α → α → Bool) (l : List α) (a b pivot : ℕ) :
    (partitionGo less l a b pivot).1.Perm l := by
  unfold partitionGo
  dsimp only
  split
  · exact (lswap_perm _ _ _).trans (lswap_perm _ _ _)
  · exact (lswap_perm _ _ _).trans
      (((partitionMainGo_perm less a b (b + 1) _ _ _).trans (lswap_perm _ _ _)).trans
        (lswap_perm _ _ _))

theorem partitionEqualMainGo_perm (less : α → α → Bool) (a b : ℕ) :
    ∀ (fuel : ℕ) (l : List α) (i j : ℕ), (partitionEqualMainGo less a b fuel l i j).1.Perm l
  | 0, l, _, _ => by simp [partitionEqualMainGo]
  | fuel + 1, l, i, j => by
    unfold partitionEqualMainGo
    dsimp only
    split
    · exact List.Perm.refl _
    · exact (partitionEqualMainGo_perm less a b fuel _ _ _).trans (lswap_perm _ _ _)

theorem partitionEqualGo_perm (less : α → α → Bool) (l : List α) (a b pivot : ℕ) :
    (partitionEqualGo less l a b pivot).1.Perm l :=
  (partitionEqualMainGo_perm less a b (b + 1) _ _ _).trans (lswap_perm _ _ _)

theorem shiftLeftLoopGo_perm (less : α → α → Bool) :
    ∀ (j : ℕ) (l : List α), (shiftLeftLoopGo less j l).Perm l
  | 0, l => by simp [shiftLeftLoopGo]
  | j + 1, l => by
    unfold shiftLeftLoopGo
    split
    · exact (shiftLeftLoopGo_perm less j _).trans (lswap_perm _ _ _)
    · exact List.Perm.refl _

theorem shiftRightLoopGo_perm (less : α → α → Bool) (b : ℕ) :
    ∀ (fuel j : ℕ) (l : List α), (shiftRightLoopGo less b fuel j l).Perm l
  | 0, _, l => by simp [shiftRightLoopGo]
  | fuel + 1, j, l => by
    unfold shiftRightLoopGo
    split
    · exact (shiftRightLoopGo_perm less b fuel (j + 1) _).trans (lswap_perm _ _ _)
    · exact List.Perm.refl _

theorem partInsertionSortGoAux_perm (less : α → α → Bool) (a b : ℕ) :
    ∀ (steps : ℕ) (l : List α) (i : ℕ), (partInsertionSortGo.go less a b steps l i).1.Perm l
  | 0, l, _ => by simp [partInsertionSortGo.go]
  | steps + 1, l, i => by
    unfold partInsertionSortGo.go
    dsimp only
    split
    · exact List.Perm.refl _
    · split
      · exact List.Perm.refl _
      · refine (partInsertionSortGoAux_perm less a b steps _ _).trans ?_
        refine List.Perm.trans (itePerm (fun m => shiftRightLoopGo_perm less b (b + 1) _ m) _) ?_
        refine List.Perm.trans (itePerm (fun m => shiftLeftLoopGo_perm less _ m) _) ?_
        exact lswap_perm _ _ _

theorem partInsertionSortGo_perm (less : α → α → Bool) (l : List α) (a b : ℕ) :
    (partInsertionSortGo less l a b).1.Perm l :=
  partInsertionSortGoAux_perm less a b 5 l (a + 1)

theorem breakPatternsGo_perm (l : List α) (a b : ℕ) : (breakPatternsGo l a b).Perm l := by
  unfold breakPatternsGo
  dsimp only
  split
  · exact ((lswap_perm _ _ _).trans (lswap_perm _ _ _)).trans (lswap_perm _ _ _)
  · exact List.Perm.refl _

set_option maxHeartbeats 2000000 in
theorem pdqsortGo_perm (less : α → α → Bool) :
    ∀ (fuel : ℕ) (l : List α) (a b limit : ℕ) (wb wp : Bool),
      (pdqsortGo less fuel l a b limit wb wp).Perm l
  | 0, l, _, _, _, _, _ => List.Perm.refl l
  | fuel + 1, l, a, b, limit, wb, wp => by
    unfold pdqsortGo
    dsimp only
    split
    · exact insertionSortGo_perm less l a b
    · split
      · exact heapSortGo_perm less l a b
      · have hp1 : (if ¬wb = true then breakPatternsGo l a b else l).Perm l :=
          itePerm (fun m => breakPatternsGo_perm m a b) l
        generalize hg1 : (if ¬wb = true then breakPatternsGo l a b else l) = l1 at hp1 ⊢
        have happly : ∀ m : List α, m.Perm l1 → m.Perm l := fun m hm => hm.trans hp1
        split <;>
          [(have hp2 : (reverseRangeGo l1 a b).Perm l1 := reverseRangeGo_perm l1 a b
            generalize hg2 : reverseRangeGo l1 a b = l2 at hp2 ⊢);
           (have hp2 : l1.Perm l1 := List.Perm.refl l1
            generalize hg2 : l1 = l2 at hp2 happly ⊢)] <;>
        · have hp2l : ∀ m : List α, m.Perm l2 → m.Perm l := fun m hm => happly _ (hm.trans hp2)
          clear hp1 hp2 happly hg1 hg2
          repeat' split
          all_goals try (rename_i hx; simp only [] at hx)
          all_goals
            first
              | exact hp2l _ (partInsertionSortGo_perm less l2 a b)
              | exact hp2l _ (List.Perm.refl l2)
              | exact (pdqsortGo_perm less fuel _ _ _ _ _ _).trans
                  ((partitionEqualGo_perm less _ a b _).trans
                    (hp2l _ (partInsertionSortGo_perm less l2 a b)))
              | exact (pdqsortGo_perm less fuel _ _ _ _ _ _).trans
                  ((partitionEqualGo_perm less _ a b _).trans (hp2l _ (List.Perm.refl l2)))
              | exact (pdqsortGo_perm less fuel _ _ _ _ _ _).trans
                  ((pdqsortGo_perm less fuel _ _ _ _ _ _).trans
                    ((partitionGo_perm less _ a b _).trans
                      (hp2l _ (partInsertionSortGo_perm less l2 a b))))
              | exact (pdqsortGo_perm less fuel _ _ _ _ _ _).trans
                  ((pdqsortGo_perm less fuel _ _ _ _ _ _).trans
                    ((partitionGo_perm less _ a b _).trans (hp2l _ (List.Perm.refl l2))))

/-- sort.Sort never changes the multiset of elements. -/
theorem sortGo_perm (less : α → α → Bool) (l : List α) : (sortGo less l).Perm l := by
  unfold sortGo
  dsimp only
  split
  · exact List.Perm.refl _
  · exact pdqsortGo_perm less _ l 0 l.length _ true true

/-- The sorted transaction sequence is a permutation of the collected one. -/
theorem sortTransactions_perm (l : List Transaction) : (sortTransactions l).Perm l :=
  sortGo_perm transactionLess l

end CT

/- ============ collection-loop characterization, C5, C6, C7 ================= -/

namespace CT

/-- Modelled from the spec: the transactions of the successfully fetched
categories, in arrival order (the reference value for the partial-success
contract). -/
def successTransactions (arrived : List FetchTypeResult) : List Transaction :=
  (arrived.filter (fun r => r.err.isNone)).flatMap (fun r => r.txs.getD [])

theorem foldl_collectStep (arrived : List FetchTypeResult) :
    ∀ acc : List Transaction × List GoErr,
      (arrived.foldl collectStep acc).1 = acc.1 ++ successTransactions arrived ∧
      (arrived.foldl collectStep acc).2.length
        = acc.2.length + arrived.countP (fun r => r.err.isSome) := by
  induction arrived with
  | nil => intro acc; simp [successTransactions]
  | cons r rest ih =>
    intro acc
    rw [List.foldl_cons]
    rcases herr : r.err with _ | e
    · rcases htxs : r.txs with _ | txs
      · have h := ih (collectStep acc r)
        simp only [collectStep, herr, htxs] at h
        have hsucc : successTransactions (r :: rest) = successTransactions rest := by
          simp [successTransactions, List.filter_cons, herr, htxs]
        have hcnt : (r :: rest).countP (fun r => r.err.isSome)
            = rest.countP (fun r => r.err.isSome) := by
          simp [List.countP_cons, herr]
        simp only [collectStep, herr, htxs, hsucc, hcnt]
        exact h
      · have h := ih (collectStep acc r)
        simp only [collectStep, herr, htxs] at h
        have hsucc : successTransactions (r :: rest) = txs ++ successTransactions rest := by
          simp [successTransactions, List.filter_cons, herr, htxs]
        have hcnt : (r :: rest).countP (fun r => r.err.isSome)
            = rest.countP (fun r => r.err.isSome) := by
          simp [List.countP_cons, herr]
        simp only [collectStep, herr, htxs, hsucc, hcnt]
        refine ⟨h.1.trans (by simp), h.2⟩
    · have h := ih (collectStep acc r)
      simp only [collectStep, herr] at h
      have hsucc : successTransactions (r :: rest) = successTransactions rest := by
        simp [successTransactions, List.filter_cons, herr]
      have hcnt : (r :: rest).countP (fun r => r.err.isSome)
          = rest.countP (fun r => r.err.isSome) + 1 := by
        simp [List.countP_cons, herr]
      simp only [collectStep, herr, hsucc, hcnt]
      refine ⟨h.1, h.2.trans (by simp; omega)⟩

theorem collectResults_txs (arrived : List FetchTypeResult) :
    (collectResults arrived).1 = successTransactions arrived := by
  have h := (foldl_collectStep arrived ([], [])).1
  simpa [collectResults] using h

theorem collectResults_errlen (arrived : List FetchTypeResult) :
    (collectResults arrived).2.length = arrived.countP (fun r => r.err.isSome) := by
  have h := (foldl_collectStep arrived ([], [])).2
  simpa [collectResults] using h

end CT

/-- A failed category result (the shape every fetchXxx helper returns when
the provider call fails). -/
def failRes (c : TxCategory) : FetchTypeResult := { txType := c, err := some "mock error" }

/-- A five-category arrival with exactly one failure: normal succeeded with
one record, internal failed, the other three succeeded empty. -/
def c5Arrived : List FetchTypeResult :=
  [fetchNormalTransactionsConcurrent (.ok [nativeTx "1000000000000000000"]),
   failRes .internalCat,
   { txType := .token }, { txType := .nft }, { txType := .erc1155 }]

/-- C5: counterexample.  The legacy FetchAllTransactionsParallel
(part_004) returns partial data with a nil error when exactly one of the
five category fetches fails, contradicting the claimed non-nil combined
error. -/
theorem C5_counterexample :
    c5Arrived.length = 5
    ∧ c5Arrived.countP (fun r => r.err.isSome) = 1
    ∧ (fetchAllTransactionsParallelLegacy c5Arrived).2 = none
    ∧ ((fetchAllTransactionsParallelLegacy c5Arrived).1.map Transaction.hash) = ["0xaaa"] := by
  refine ⟨by decide, by decide, by decide, by decide⟩

/-- C5 (amended): with at least one but fewer than five failed categories,
the stats-tracking FetchAllTransactionsParallel returns the successful
categories' transactions (as a permutation, being sorted) together with a
non-nil combined error; the legacy variant returns the same data but with a
nil error. -/
theorem C5_amended (arrived : List FetchTypeResult)
    (hlen : arrived.length = 5)
    (hlo : 1 ≤ arrived.countP (fun r => r.err.isSome))
    (hhi : arrived.countP (fun r => r.err.isSome) < 5) :
    ((fetchAllTransactionsParallel arrived).2.isSome
      ∧ (fetchAllTransactionsParallel arrived).1.Perm (successTransactions arrived))
    ∧ ((fetchAllTransactionsParallelLegacy arrived).2 = none
      ∧ (fetchAllTransactionsParallelLegacy arrived).1.Perm (successTransactions arrived)) := by
  have he := collectResults_errlen arrived
  have ht := collectResults_txs arrived
  have hne5 : ¬(collectResults arrived).2.length = 5 := by omega
  have hpos : 0 < (collectResults arrived).2.length := by omega
  have hsortedPerm :
      (if 0 < (collectResults arrived).1.length then
        sortTransactions (collectResults arrived).1 else (collectResults arrived).1).Perm
        (successTransactions arrived) := by
    rw [← ht]
    exact itePerm (fun m => sortTransactions_perm m) _
  constructor
  · unfold fetchAllTransactionsParallel
    rw [if_neg hne5, if_pos hpos]
    exact ⟨rfl, hsortedPerm⟩
  · unfold fetchAllTransactionsParallelLegacy
    rw [if_neg hne5]
    exact ⟨rfl, hsortedPerm⟩

/-- C5: witness for the amended theorem at the one-failure arrival. -/
theorem C5_amended_witness :
    ((fetchAllTransactionsParallel c5Arrived).2.isSome
      ∧ (fetchAllTransactionsParallel c5Arrived).1.Perm (successTransactions c5Arrived))
    ∧ ((fetchAllTransactionsParallelLegacy c5Arrived).2 = none
      ∧ (fetchAllTransactionsParallelLegacy c5Arrived).1.Perm (successTransactions c5Arrived)) :=
  C5_amended c5Arrived (by decide) (by decide) (by decide)

/-- C6: when all five category fetches fail, both
FetchAllTransactionsParallel variants return no transactions and a non-nil
combined error. -/
theorem C6_all_fail (arrived : List FetchTypeResult)
    (hlen : arrived.length = 5)
    (hall : ∀ r ∈ arrived, r.err.isSome) :
    (fetchAllTransactionsParallel arrived).1 = []
    ∧ (fetchAllTransactionsParallel arrived).2.isSome
    ∧ (fetchAllTransactionsParallelLegacy arrived).1 = []
    ∧ (fetchAllTransactionsParallelLegacy arrived).2.isSome := by
  have he := collectResults_errlen arrived
  have hcount : arrived.countP (fun r => r.err.isSome) = 5 := by
    rw [List.countP_eq_length.mpr hall, hlen]
  have h5 : (collectResults arrived).2.length = 5 := by omega
  constructor
  · unfold fetchAllTransactionsParallel
    rw [if_pos h5]
  · constructor
    · unfold fetchAllTransactionsParallel
      rw [if_pos h5]
      rfl
    · constructor
      · unfold fetchAllTransactionsParallelLegacy
        rw [if_pos h5]
      · unfold fetchAllTransactionsParallelLegacy
        rw [if_pos h5]
        rfl

/-- All five categories failed. -/
def c6Arrived : List FetchTypeResult :=
  [failRes .normal, failRes .internalCat, failRes .token, failRes .nft, failRes .erc1155]

/-- C6: witness at a concrete five-failure arrival. -/
theorem C6_all_fail_witness :
    (fetchAllTransactionsParallel c6Arrived).1 = []
    ∧ (fetchAllTransactionsParallel c6Arrived).2.isSome
    ∧ (fetchAllTransactionsParallelLegacy c6Arrived).1 = []
    ∧ (fetchAllTransactionsParallelLegacy c6Arrived).2.isSome :=
  C6_all_fail c6Arrived (by decide) (by decide)

/- ===================== C7 ===================== -/

namespace CT

theorem poolStep_counts (st : NormalizationStats)
    (r : Option Transaction × Option GoErr) (hr : r ≠ (none, none)) :
    (poolStep st r).successCount + (poolStep st r).errorCount
        = st.successCount + st.errorCount + 1
    ∧ (poolStep st r).totalProcessed = st.totalProcessed + 1 := by
  rcases r with ⟨rt, re⟩
  rcases re with _ | e
  · rcases rt with _ | tx
    · exact absurd rfl hr
    · simp [poolStep]
      omega
  · simp [poolStep]
    omega

theorem poolStats_fold {T : Type}
    (normalizeFunc : T → Option Transaction × Option GoErr)
    (hf : ∀ x : T, normalizeFunc x ≠ (none, none)) :
    ∀ (items : List T) (st : NormalizationStats),
      ((items.foldl (fun st item => poolStep st (normalizeFunc item)) st).successCount
          + (items.foldl (fun st item => poolStep st (normalizeFunc item)) st).errorCount
        = st.successCount + st.errorCount + items.length)
      ∧ (items.foldl (fun st item => poolStep st (normalizeFunc item)) st).totalProcessed
        = st.totalProcessed + items.length := by
  intro items
  induction items with
  | nil => intro st; simp
  | cons x rest ih =>
    intro st
    rw [List.foldl_cons]
    have hstep := poolStep_counts st (normalizeFunc x) (hf x)
    have h := ih (poolStep st (normalizeFunc x))
    refine ⟨?_, ?_⟩
    · rw [h.1, hstep.1]
      simp
      omega
    · rw [h.2, hstep.2]
      simp
      omega

/-- Per-record counting of the stats-tracking category loops of the
ParallelFetcher (the same counting discipline as poolStep, plus
collecting successful transactions). -/
theorem categoryStep_counts {T : Type}
    (normalizeFunc : T → Option Transaction × Option GoErr) (msg : String)
    (acc : List Transaction × NormalizationStats) (x : T)
    (hr : normalizeFunc x ≠ (none, none)) :
    ((categoryStep normalizeFunc msg acc x).2.successCount
        + (categoryStep normalizeFunc msg acc x).2.errorCount
      = acc.2.successCount + acc.2.errorCount + 1)
    ∧ (categoryStep normalizeFunc msg acc x).2.totalProcessed
      = acc.2.totalProcessed + 1 := by
  unfold categoryStep
  rcases hre : (normalizeFunc x).2 with _ | e
  · rcases hrt : (normalizeFunc x).1 with _ | tx
    · exfalso
      apply hr
      rcases hfx : normalizeFunc x with ⟨a, b⟩
      rw [hfx] at hre hrt
      simp at hre hrt
      rw [hre, hrt]
    · simp only [hre, hrt]
      simp
      omega
  · simp only [hre]
    simp
    omega

theorem categoryFold_counts {T : Type}
    (normalizeFunc : T → Option Transaction × Option GoErr) (msg : String)
    (hf : ∀ x : T, normalizeFunc x ≠ (none, none)) :
    ∀ (items : List T) (acc : List Transaction × NormalizationStats),
      ((items.foldl (categoryStep normalizeFunc msg) acc).2.successCount
          + (items.foldl (categoryStep normalizeFunc msg) acc).2.errorCount
        = acc.2.successCount + acc.2.errorCount + items.length)
      ∧ (items.foldl (categoryStep normalizeFunc msg) acc).2.totalProcessed
        = acc.2.totalProcessed + items.length := by
  intro items
  induction items with
  | nil => intro acc; simp
  | cons x rest ih =>
    intro acc
    rw [List.foldl_cons]
    have hstep := categoryStep_counts normalizeFunc msg acc x (hf x)
    have h := ih (categoryStep normalizeFunc msg acc x)
    refine ⟨?_, ?_⟩
    · rw [h.1, hstep.1]
      simp
      omega
    · rw [h.2, hstep.2]
      simp
      omega

end CT

/-- C7: counterexample.  With a normalize function returning a nil
Transaction and a nil error, the typed worker pool counts the record in
TotalProcessed but in neither SuccessCount nor ErrorCount, so the claimed
identity fails on such a run. -/
theorem C7_counterexample :
    ¬((normalizeWorkerPoolTypedStats (fun _ : Unit => (none, none)) [()]).successCount
        + (normalizeWorkerPoolTypedStats (fun _ : Unit => (none, none)) [()]).errorCount
      = (normalizeWorkerPoolTypedStats (fun _ : Unit => (none, none)) [()]).totalProcessed) := by
  decide

/-- C7 (amended): for every input slice and every normalize function that
never returns a nil Transaction together with a nil error (all five
EtherscanNormalizer operations qualify), the pool statistics satisfy
SuccessCount + ErrorCount = TotalProcessed and TotalProcessed equals the
number of records processed; the same discipline holds for the
stats-tracking category loops of the ParallelFetcher. -/
theorem C7_amended {T : Type}
    (normalizeFunc : T → Option Transaction × Option GoErr)
    (hf : ∀ x : T, normalizeFunc x ≠ (none, none)) (items : List T) (msg : String) :
    ((normalizeWorkerPoolTypedStats normalizeFunc items).successCount
        + (normalizeWorkerPoolTypedStats normalizeFunc items).errorCount
      = (normalizeWorkerPoolTypedStats normalizeFunc items).totalProcessed)
    ∧ (normalizeWorkerPoolTypedStats normalizeFunc items).totalProcessed = items.length
    ∧ ((categoryFold normalizeFunc msg items).2.successCount
          + (categoryFold normalizeFunc msg items).2.errorCount
        = (categoryFold normalizeFunc msg items).2.totalProcessed)
    ∧ (categoryFold normalizeFunc msg items).2.totalProcessed = items.length := by
  have h := poolStats_fold normalizeFunc hf items {}
  have hc := categoryFold_counts normalizeFunc msg hf items ([], {})
  unfold normalizeWorkerPoolTypedStats
  refine ⟨?_, ?_, ?_, ?_⟩
  · rw [h.1, h.2]
    simp
  · rw [h.2]
    simp
  · unfold categoryFold
    rw [hc.1, hc.2]
    simp
  · unfold categoryFold
    rw [hc.2]
    simp

/-- C7: witness at the always-succeeding NormalizeNormalTx over a
two-record slice. -/
theorem C7_amended_witness :
    ((normalizeWorkerPoolTypedStats NormalizeNormalTx [nativeTx "1", nativeTx "2"]).successCount
        + (normalizeWorkerPoolTypedStats NormalizeNormalTx [nativeTx "1", nativeTx "2"]).errorCount
      = (normalizeWorkerPoolTypedStats NormalizeNormalTx [nativeTx "1", nativeTx "2"]).totalProcessed)
    ∧ (normalizeWorkerPoolTypedStats NormalizeNormalTx [nativeTx "1", nativeTx "2"]).totalProcessed
        = [nativeTx "1", nativeTx "2"].length
    ∧ ((categoryFold NormalizeNormalTx "m: " [nativeTx "1", nativeTx "2"]).2.successCount
          + (categoryFold NormalizeNormalTx "m: " [nativeTx "1", nativeTx "2"]).2.errorCount
        = (categoryFold NormalizeNormalTx "m: " [nativeTx "1", nativeTx "2"]).2.totalProcessed)
    ∧ (categoryFold NormalizeNormalTx "m: " [nativeTx "1", nativeTx "2"]).2.totalProcessed
        = [nativeTx "1", nativeTx "2"].length :=
  C7_amended NormalizeNormalTx (fun x => by simp [NormalizeNormalTx])
    [nativeTx "1", nativeTx "2"] "m: "

/- ===================== C1: fixtures and reference sort ===================== -/

namespace CT

/-- fetchInternalTransactionsConcurrent (stats variant). -/
def fetchInternalTransactionsConcurrent
    (outcome : Except GoErr (List EtherscanInternalTx)) : FetchTypeResult :=
  match outcome with
  | .error e => { txType := .internalCat, err := some e }
  | .ok rawTxs =>
    let r := categoryFold NormalizeInternalTx "failed to normalize internal transaction: " rawTxs
    { txType := .internalCat
      txs := if r.1.isEmpty then none else some r.1
      count := r.1.length
      stats := r.2 }

/-- fetchTokenTransfersConcurrent (stats variant); none when some record
panics inside NormalizeERC20Tx. -/
def fetchTokenTransfersConcurrent
    (outcome : Except GoErr (List EtherscanTokenTx)) : Option FetchTypeResult :=
  match outcome with
  | .error e => some { txType := .token, err := some e }
  | .ok rawTxs =>
    match rawTxs.mapM NormalizeERC20Tx with
    | none => none
    | some rs =>
      let r := categoryFold (fun x => x) "failed to normalize token transaction: " rs
      some { txType := .token
             txs := if r.1.isEmpty then none else some r.1
             count := r.1.length
             stats := r.2 }

/-- fetchNFTTransfersConcurrent (stats variant). -/
def fetchNFTTransfersConcurrent
    (outcome : Except GoErr (List EtherscanTokenTx)) : FetchTypeResult :=
  match outcome with
  | .error e => { txType := .nft, err := some e }
  | .ok rawTxs =>
    let r := categoryFold NormalizeERC721Tx "failed to normalize NFT transaction: " rawTxs
    { txType := .nft
      txs := if r.1.isEmpty then none else some r.1
      count := r.1.length
      stats := r.2 }

/-- fetchERC1155TransfersConcurrent (stats variant). -/
def fetchERC1155TransfersConcurrent
    (outcome : Except GoErr (List EtherscanTokenTx)) : FetchTypeResult :=
  match outcome with
  | .error e => { txType := .erc1155, err := some e }
  | .ok rawTxs =>
    let r := categoryFold NormalizeERC1155Tx "failed to normalize ERC1155 transaction: " rawTxs
    { txType := .erc1155
      txs := if r.1.isEmpty then none else some r.1
      count := r.1.length
      stats := r.2 }

/-- Modelled from the spec: stable insertion of x after every element of the
reversed sorted prefix that x is not strictly less than (ties keep the
earlier element in front). -/
def insRevRef (less : α → α → Bool) (x : α) : List α → List α
  | [] => [x]
  | y :: ys => if less x y then y :: insRevRef less x ys else x :: y :: ys

/-- Left-to-right stable insertion over a reversed accumulator. -/
def stableInsertAll (less : α → α → Bool) : List α → List α → List α
  | revAcc, [] => revAcc.reverse
  | revAcc, x :: rest => stableInsertAll less (insRevRef less x revAcc) rest

/-- Modelled from the spec: the stable insertion sort the merge/sort stage
is specified to behave as — ascending by the comparator, ties kept in
input encounter order. -/
def stableInsertionSort (less : α → α → Bool) (l : List α) : List α :=
  stableInsertAll less [] l

end CT

/-- One of the thirteen native-transfer records of the stability
counterexample: block as given, all confirmation timestamps equal. -/
def c1Tx (blk : String) (h : String) : EtherscanNormalTx :=
  { blockNumber := blk, timeStamp := "5", hash := h, value := "0",
    gasUsed := "1", gasPrice := "0", fromAddress := "0xf", toAddress := "0xt" }

/-- Thirteen records, in fetch order; blocks 1 and 5 carry ties. -/
def c1RawTxs : List EtherscanNormalTx :=
  [c1Tx "5" "h0", c1Tx "1" "h1", c1Tx "1" "h2", c1Tx "2" "h3", c1Tx "5" "h4",
   c1Tx "5" "h5", c1Tx "2" "h6", c1Tx "5" "h7", c1Tx "5" "h8", c1Tx "2" "h9",
   c1Tx "5" "h10", c1Tx "5" "h11", c1Tx "9" "h12"]

/-- A five-category run in which only the normal category has records (the
token pool runs over an empty slice, so NormalizeERC20Tx cannot panic). -/
def c1Arrived : List FetchTypeResult :=
  [fetchNormalTransactionsConcurrent (.ok c1RawTxs),
   fetchInternalTransactionsConcurrent (.ok []),
   (fetchTokenTransfersConcurrent (.ok [])).getD (failRes .token),
   fetchNFTTransfersConcurrent (.ok []),
   fetchERC1155TransfersConcurrent (.ok [])]

/-- The key value shared by the two block-1 transactions. -/
def c1Probe : Transaction := { blockNumber := 1, timestamp := 5 }

/-- C1: counterexample.  The collected (encounter-order) sequence has the
block-1 ties as h1 before h2, but the final sequence returned by
FetchAllTransactionsParallel has h2 before h1 (and the block-5 ties also
reordered), so Go 1.24's sort.Sort (pdqsort) is not stable; thirteen
records is the smallest size at which sort.Sort leaves its stable
insertion-sort path. -/
theorem C1_counterexample :
    ((collectResults c1Arrived).1.map Transaction.hash)
      = ["h0", "h1", "h2", "h3", "h4", "h5", "h6", "h7", "h8", "h9", "h10", "h11", "h12"]
    ∧ (((collectResults c1Arrived).1.filter (fun t => sameKey c1Probe t)).map Transaction.hash)
      = ["h1", "h2"]
    ∧ ((fetchAllTransactionsParallel c1Arrived).1.map Transaction.hash)
      = ["h2", "h1", "h6", "h3", "h9", "h4", "h5", "h0", "h7", "h8", "h10", "h11", "h12"]
    ∧ (((fetchAllTransactionsParallel c1Arrived).1.filter
          (fun t => sameKey c1Probe t)).map Transaction.hash)
      = ["h2", "h1"]
    ∧ (fetchAllTransactionsParallel c1Arrived).2 = none := by
  refine ⟨by decide, by decide, by decide, by decide, by decide⟩

/- ========== C1: insertionSortGo agrees with the stable reference =========== -/

namespace CT

variable {α : Type} [Inhabited α]

theorem lget_append_len (s : List α) (x : α) (r : List α) :
    lget (s ++ x :: r) s.length = x := by
  unfold lget
  induction s with
  | nil => rfl
  | cons a s ih => simpa [List.getD_cons_succ] using ih

theorem set_adj (s : List α) (y x : α) (r : List α) :
    ((s ++ y :: x :: r).set (s.length + 1) y).set s.length x = s ++ x :: y :: r := by
  induction s with
  | nil => rfl
  | cons a s ih => simpa [List.set_cons_succ] using ih

theorem lswap_adj (s : List α) (y x : α) (r : List α) :
    lswap (s ++ y :: x :: r) (s.length + 1) s.length = s ++ x :: y :: r := by
  have h1 : lget (s ++ y :: x :: r) s.length = y := lget_append_len s y (x :: r)
  have h2 : lget (s ++ y :: x :: r) (s.length + 1) = x := by
    have h := lget_append_len (s ++ [y]) x r
    rw [List.append_assoc] at h
    simpa [List.length_append] using h
  have hc : s.length + 1 < (s ++ y :: x :: r).length ∧
      s.length < (s ++ y :: x :: r).length := by
    simp only [List.length_append, List.length_cons]
    omega
  rw [lswap, if_pos hc, h1, h2, set_adj]

theorem insRevRef_length (less : α → α → Bool) (x : α) :
    ∀ l : List α, (insRevRef less x l).length = l.length + 1 := by
  intro l
  induction l with
  | nil => rfl
  | cons y ys ih =>
    rw [insRevRef]
    split <;> simp [ih]

theorem insertionSortInner_spec (less : α → α → Bool) :
    ∀ (s : List α) (x : α) (r : List α),
      insertionSortInner less 0 s.length (s ++ x :: r)
        = (insRevRef less x s.reverse).reverse ++ r := by
  intro s
  induction s using List.reverseRecOn with
  | nil => intro x r; simp [insertionSortInner, insRevRef]
  | append_singleton s y ih =>
    intro x r
    have hlen : (s ++ [y]).length = s.length + 1 := by simp
    rw [hlen, List.append_assoc]
    simp only [List.cons_append, List.nil_append]
    have hy : lget (s ++ y :: x :: r) s.length = y := lget_append_len s y (x :: r)
    have hx : lget (s ++ y :: x :: r) (s.length + 1) = x := by
      have h := lget_append_len (s ++ [y]) x r
      rw [List.append_assoc] at h
      simpa [List.length_append] using h
    rw [insertionSortInner, hy, hx]
    by_cases hxy : less x y = true
    · rw [if_pos ⟨Nat.succ_pos _, hxy⟩, lswap_adj, ih x (y :: r)]
      simp [insRevRef, hxy, List.append_assoc]
    · rw [if_neg (fun h => hxy h.2)]
      simp [insRevRef, hxy, List.append_assoc]

theorem insertionSortOuter_spec (less : α → α → Bool) :
    ∀ (r revAcc : List α) (fuel : ℕ), r.length < fuel →
      insertionSortOuter less (revAcc.length + r.length) 0 fuel revAcc.length
          (revAcc.reverse ++ r)
        = stableInsertAll less revAcc r := by
  intro r
  induction r with
  | nil =>
    intro revAcc fuel hf
    match fuel, hf with
    | fuel + 1, _ =>
      rw [insertionSortOuter, if_neg (by simp only [List.length_nil]; omega)]
      simp [stableInsertAll]
  | cons x rest ih =>
    intro revAcc fuel hf
    match fuel, hf with
    | fuel + 1, hf =>
      rw [insertionSortOuter, if_pos (by simp only [List.length_cons]; omega)]
      have hinner := insertionSortInner_spec less revAcc.reverse x rest
      rw [List.length_reverse] at hinner
      rw [hinner, List.reverse_reverse]
      have hlen := insRevRef_length less x revAcc
      have he : revAcc.length + 1 + rest.length = revAcc.length + (rest.length + 1) := by
        omega
      simp only [List.length_cons]
      rw [← he, ← hlen, stableInsertAll]
      exact ih (insRevRef less x revAcc) fuel (by simp only [List.length_cons] at hf; omega)

theorem insertionSortOuter_spec' (less : α → α → Bool) (r revAcc : List α)
    (b i fuel : ℕ) (hb : b = revAcc.length + r.length) (hi : i = revAcc.length)
    (hf : r.length < fuel) :
    insertionSortOuter less b 0 fuel i (revAcc.reverse ++ r)
      = stableInsertAll less revAcc r := by
  subst hb
  subst hi
  exact insertionSortOuter_spec less r revAcc fuel hf

theorem insertionSortGo_eq_stable (less : α → α → Bool) (l : List α) :
    insertionSortGo less l 0 l.length = stableInsertionSort less l := by
  cases l with
  | nil => rfl
  | cons x rest =>
    unfold insertionSortGo
    have h := insertionSortOuter_spec' less rest [x] (x :: rest).length (0 + 1)
      ((x :: rest).length + 1) (by simp [Nat.add_comm]) (by simp)
      (by simp only [List.length_cons]; omega)
    simp only [List.reverse_cons, List.reverse_nil, List.nil_append,
      List.singleton_append] at h
    rw [h]
    simp [stableInsertionSort, stableInsertAll, insRevRef]

theorem sortGo_small (less : α → α → Bool) (l : List α) (h : l.length ≤ 12) :
    sortGo less l = stableInsertionSort less l := by
  unfold sortGo
  dsimp only
  by_cases h1 : l.length ≤ 1
  · rw [if_pos h1]
    match l, h1 with
    | [], _ => rfl
    | [x], _ => rfl
  · rw [if_neg h1]
    obtain ⟨f, hf⟩ : ∃ f, l.length = f + 1 := ⟨l.length - 1, by omega⟩
    rw [hf] at h ⊢
    simp only [pdqsortGo]
    rw [if_pos (by omega : f + 1 - 0 ≤ 12), ← hf]
    exact insertionSortGo_eq_stable less l

end CT

/- ========== C1: the stable reference is sorted and key-stable =============== -/

namespace CT

theorem insRevRef_head (less : α → α → Bool) (x : α) :
    ∀ l : List α, (insRevRef less x l).head? = some x
      ∨ (insRevRef less x l).head? = l.head? := by
  intro l
  cases l with
  | nil => left; rfl
  | cons y ys =>
    rw [insRevRef]
    split
    · right; rfl
    · left; rfl

theorem insRevRef_chain (less : α → α → Bool)
    (H1 : ∀ a b, less a b = true → less b a = false) (x : α) :
    ∀ l : List α, l.Chain' (fun a b => less a b = false) →
      (insRevRef less x l).Chain' (fun a b => less a b = false) := by
  intro l
  induction l with
  | nil => intro _; simp [insRevRef]
  | cons y ys ih =>
    intro hc
    rw [List.chain'_cons'] at hc
    rw [insRevRef]
    split
    case isTrue hxy =>
      rw [List.chain'_cons']
      refine ⟨?_, ih hc.2⟩
      intro b hb
      rcases insRevRef_head less x ys with hh | hh
      · rw [hh] at hb
        simp only [Option.mem_def, Option.some_inj] at hb
        rw [← hb]
        exact H1 x y hxy
      · rw [hh] at hb
        exact hc.1 b hb
    case isFalse hxy =>
      rw [List.chain'_cons]
      refine ⟨?_, List.chain'_cons'.mpr hc⟩
      simpa using hxy

theorem stableInsertAll_chain (less : α → α → Bool)
    (H1 : ∀ a b, less a b = true → less b a = false) :
    ∀ (r revAcc : List α), revAcc.Chain' (fun a b => less a b = false) →
      (stableInsertAll less revAcc r).Chain' (fun a b => less b a = false) := by
  intro r
  induction r with
  | nil =>
    intro revAcc hc
    rw [stableInsertAll]
    exact List.chain'_reverse.mpr hc
  | cons x rest ih =>
    intro revAcc hc
    rw [stableInsertAll]
    exact ih (insRevRef less x revAcc) (insRevRef_chain less H1 x revAcc hc)

theorem stableInsertionSort_pairwise (less : α → α → Bool)
    (H1 : ∀ a b, less a b = true → less b a = false)
    (H2 : ∀ a b c, less a b = false → less b c = false → less a c = false)
    (l : List α) :
    (stableInsertionSort less l).Pairwise (fun a b => less b a = false) := by
  have hc : (stableInsertionSort less l).Chain' (fun a b => less b a = false) :=
    stableInsertAll_chain less H1 l [] (by simp)
  haveI : IsTrans α (fun a b => less b a = false) :=
    ⟨fun a b c hab hbc => H2 c b a hbc hab⟩
  exact List.chain'_iff_pairwise.mp hc

theorem insRevRef_filter (less : α → α → Bool) (x : α) (p : α → Bool)
    (hp : p x = true → ∀ y, less x y = true → p y = false) :
    ∀ l : List α, (insRevRef less x l).filter p
      = if p x then x :: l.filter p else l.filter p := by
  intro l
  induction l with
  | nil => simp [insRevRef, List.filter_cons]
  | cons y ys ih =>
    rw [insRevRef]
    split
    case isTrue hxy =>
      by_cases hpx : p x = true
      · have hpy : p y = false := hp hpx y hxy
        simp [List.filter_cons, ih, hpx, hpy]
      · have hpx' : p x = false := by simpa using hpx
        simp [List.filter_cons, ih, hpx']
    case isFalse hxy =>
      simp [List.filter_cons]

theorem stableInsertAll_filter (less : α → α → Bool) (p : α → Bool)
    (Hp : ∀ x y, p x = true → less x y = true → p y = false) :
    ∀ (r revAcc : List α),
      (stableInsertAll less revAcc r).filter p
        = (revAcc.filter p).reverse ++ r.filter p := by
  intro r
  induction r with
  | nil =>
    intro revAcc
    simp [stableInsertAll, List.filter_reverse]
  | cons x rest ih =>
    intro revAcc
    rw [stableInsertAll, ih (insRevRef less x revAcc),
      insRevRef_filter less x p (fun hx y hxy => Hp x y hx hxy) revAcc]
    by_cases hpx : p x = true <;>
      simp [hpx, List.filter_cons, List.reverse_cons, List.append_assoc]

theorem stableInsertionSort_filter (less : α → α → Bool) (p : α → Bool)
    (Hp : ∀ x y, p x = true → less x y = true → p y = false) (l : List α) :
    (stableInsertionSort less l).filter p = l.filter p := by
  have h := stableInsertAll_filter less p Hp l []
  simpa [stableInsertionSort] using h

theorem transactionLess_asymm (x y : Transaction) :
    transactionLess x y = true → transactionLess y x = false := by
  intro h
  unfold transactionLess at h ⊢
  by_cases hb : x.blockNumber = y.blockNumber
  · simp [hb] at h ⊢
    omega
  · have hb2 : ¬ y.blockNumber = x.blockNumber := fun e => hb e.symm
    simp [hb, hb2] at h ⊢
    omega

theorem transactionLess_negtrans (x y z : Transaction) :
    transactionLess x y = false → transactionLess y z = false →
      transactionLess x z = false := by
  intro h1 h2
  simp only [transactionLess] at h1 h2 ⊢
  by_cases hxy : x.blockNumber = y.blockNumber <;>
    by_cases hyz : y.blockNumber = z.blockNumber <;>
    by_cases hxz : x.blockNumber = z.blockNumber <;>
    simp_all <;> omega

theorem transactionLess_key (a x y : Transaction) :
    sameKey a x = true → transactionLess x y = true → sameKey a y = false := by
  intro h1 h2
  simp only [sameKey, transactionLess] at h1 h2 ⊢
  by_cases hb : x.blockNumber = y.blockNumber <;> simp_all <;> omega

end CT

/-- A small batch (below sort.Sort's thirteen-element threshold) used to
instantiate the amended claim. -/
def c1Small : List Transaction :=
  [{ hash := "a", blockNumber := 2, timestamp := 1 },
   { hash := "b", blockNumber := 1, timestamp := 5 },
   { hash := "c", blockNumber := 1, timestamp := 5 },
   { hash := "d", blockNumber := 2, timestamp := 0 }]

/-- C1: amended.  sort.Sort always returns a permutation of its input, and
for batches of at most twelve transactions it coincides with the stable
insertion sort by (block number, timestamp), which is sorted by that key
and preserves the encounter order of every key class; for longer batches
stability can fail (see the counterexample). -/
theorem C1_amended :
    (∀ l : List Transaction, (sortTransactions l).Perm l)
    ∧ (∀ l : List Transaction, l.length ≤ 12 →
        sortTransactions l = stableInsertionSort transactionLess l)
    ∧ (∀ l : List Transaction,
        (stableInsertionSort transactionLess l).Pairwise
          (fun x y => transactionLess y x = false))
    ∧ (∀ (l : List Transaction) (a : Transaction),
        (stableInsertionSort transactionLess l).filter (fun b => sameKey a b)
          = l.filter (fun b => sameKey a b)) := by
  refine ⟨fun l => sortTransactions_perm l, ?_, ?_, ?_⟩
  · intro l h
    exact sortGo_small transactionLess l h
  · intro l
    exact stableInsertionSort_pairwise transactionLess
      (fun a b => transactionLess_asymm a b)
      (fun a b c => transactionLess_negtrans a b c) l
  · intro l a
    exact stableInsertionSort_filter transactionLess (fun b => sameKey a b)
      (fun x y hx hxy => transactionLess_key a x y hx hxy) l

/-- C1: witness for the amended claim at a concrete four-element batch. -/
theorem C1_amended_witness :
    (sortTransactions c1Small).Perm c1Small
    ∧ sortTransactions c1Small = stableInsertionSort transactionLess c1Small
    ∧ (stableInsertionSort transactionLess c1Small).Pairwise
        (fun x y => transactionLess y x = false)
    ∧ (stableInsertionSort transactionLess c1Small).filter
          (fun b => sameKey c1Probe b)
        = c1Small.filter (fun b => sameKey c1Probe b) :=
  ⟨C1_amended.1 c1Small, C1_amended.2.1 c1Small (by decide),
   C1_amended.2.2.1 c1Small, C1_amended.2.2.2 c1Small c1Probe⟩

/- ========== C10: cancellation behaviour of the two worker pools ============= -/

namespace CT

/-- Joint state of one normalizeWorkerPool call with one worker, under a
context that is already cancelled: the feed goroutine's program counter
(0 = in the feed loop's select, 1 = at the trailing close(workQueue),
2 = exited), the next item index, the number of buffered items in
workQueue, whether workQueue has been closed, the worker's program counter
(0 = blocked at the range receive, 1 = exited), and whether
workerWg.Wait has returned (the pool call itself returning). -/
structure PoolState where
  feederPC : ℕ := 0
  feedIdx : ℕ := 0
  queueLen : ℕ := 0
  queueClosed : Bool := false
  workerPC : ℕ := 0
  poolDone : Bool := false
  deriving DecidableEq, Repr, Inhabited

/-- pkg/providers/parallel_normalizer.go normalizeWorkerPool over n items,
specialized to a cancelled context and one worker.  The feed goroutine's
select offers the buffered send and ctx.Done; taking ctx.Done executes a
bare `return`, which skips the close(workQueue) that sits after the
switch.  The worker's range receive is followed by a select on ctx.Done
with a default, so with a cancelled context the worker returns right
after each receive; on a closed drained queue the range loop ends.
workerWg.Wait returns once the worker has exited. -/
inductive LegacyStep (n : ℕ) : PoolState → PoolState → Prop
  | feedSend (s : PoolState) : s.feederPC = 0 → s.feedIdx < n → s.queueLen < n →
      LegacyStep n s { s with feedIdx := s.feedIdx + 1, queueLen := s.queueLen + 1 }
  | feedCancel (s : PoolState) : s.feederPC = 0 → s.feedIdx < n →
      LegacyStep n s { s with feederPC := 2 }
  | feedFinish (s : PoolState) : s.feederPC = 0 → s.feedIdx = n →
      LegacyStep n s { s with feederPC := 1 }
  | feedClose (s : PoolState) : s.feederPC = 1 →
      LegacyStep n s { s with feederPC := 2, queueClosed := true }
  | workerRecv (s : PoolState) : s.workerPC = 0 → 0 < s.queueLen →
      LegacyStep n s { s with queueLen := s.queueLen - 1, workerPC := 1 }
  | workerClosedExit (s : PoolState) : s.workerPC = 0 → s.queueLen = 0 →
      s.queueClosed = true → LegacyStep n s { s with workerPC := 1 }
  | poolWait (s : PoolState) : s.workerPC = 1 → s.poolDone = false →
      LegacyStep n s { s with poolDone := true }

/-- internal normalizeWorkerPoolTyped (part_006) under the same
specialization.  The only difference: close(workQueue) is a defer in the
feed goroutine, so both the cancelled exit and the normal exit close the
queue, and there is no separate pre-close state. -/
inductive FixedStep (n : ℕ) : PoolState → PoolState → Prop
  | feedSend (s : PoolState) : s.feederPC = 0 → s.feedIdx < n → s.queueLen < n →
      FixedStep n s { s with feedIdx := s.feedIdx + 1, queueLen := s.queueLen + 1 }
  | feedCancel (s : PoolState) : s.feederPC = 0 → s.feedIdx < n →
      FixedStep n s { s with feederPC := 2, queueClosed := true }
  | feedFinish (s : PoolState) : s.feederPC = 0 → s.feedIdx = n →
      FixedStep n s { s with feederPC := 2, queueClosed := true }
  | workerRecv (s : PoolState) : s.workerPC = 0 → 0 < s.queueLen →
      FixedStep n s { s with queueLen := s.queueLen - 1, workerPC := 1 }
  | workerClosedExit (s : PoolState) : s.workerPC = 0 → s.queueLen = 0 →
      s.queueClosed = true → FixedStep n s { s with workerPC := 1 }
  | poolWait (s : PoolState) : s.workerPC = 1 → s.poolDone = false →
      FixedStep n s { s with poolDone := true }

/-- Initial state: nothing fed, queue empty and open, worker at the range
receive, pool waiting. -/
def poolInit : PoolState := {}

/-- The state the legacy pool deadlocks in: the feed goroutine took the
ctx.Done branch and returned without closing workQueue. -/
def poolStuck : PoolState := { feederPC := 2 }

/-- Reachability for the fixed pool. -/
def FixedReach (n : ℕ) (s : PoolState) : Prop :=
  Relation.ReflTransGen (FixedStep n) poolInit s

/-- Invariant of the fixed pool: the feed goroutine is either still in its
loop or has exited with the queue closed, the item index never passes n,
and the worker's counter stays in range. -/
def PoolInv (n : ℕ) (s : PoolState) : Prop :=
  (s.feederPC = 0 ∨ (s.feederPC = 2 ∧ s.queueClosed = true))
    ∧ s.feedIdx ≤ n ∧ s.workerPC ≤ 1

theorem fixedStep_inv (n : ℕ) (s t : PoolState) (hs : PoolInv n s)
    (h : FixedStep n s t) : PoolInv n t := by
  obtain ⟨h1, h2, h3⟩ := hs
  cases h <;> simp_all [PoolInv] <;> omega

theorem fixedReach_inv (n : ℕ) (s : PoolState) (h : FixedReach n s) :
    PoolInv n s := by
  induction h with
  | refl => exact ⟨Or.inl rfl, Nat.zero_le n, Nat.zero_le 1⟩
  | tail hab hbc ih => exact fixedStep_inv n _ _ ih hbc

end CT

/-- C10: divergence.  With a context cancelled mid-run and a single record
to feed, the legacy providers pool reaches (in one step: its feed
goroutine takes the ctx.Done branch, returning without closing workQueue)
a state from which no transition is enabled while the pool call has not
returned — the worker is blocked forever on the open, empty queue, so
workerWg.Wait, wg.Done, close(resultChan) and the collector of
NormalizeTransactionsParallel all hang: a deadlock.  The internal pool of
part_006, whose only relevant difference is the deferred close(workQueue),
can never get stuck before the pool call returns. -/
theorem C10_deadlock :
    (LegacyStep 1 poolInit poolStuck
      ∧ (∀ t, ¬ LegacyStep 1 poolStuck t)
      ∧ poolStuck.poolDone = false)
    ∧ (∀ s : PoolState, FixedReach 1 s → (∀ t, ¬ FixedStep 1 s t) →
        s.poolDone = true) := by
  refine ⟨⟨?_, ?_, rfl⟩, ?_⟩
  · have h := LegacyStep.feedCancel (n := 1) poolInit rfl (by decide)
    exact h
  · intro t h
    cases h <;> simp_all [poolStuck]
  · intro s hreach hstuck
    obtain ⟨h1, h2, h3⟩ := fixedReach_inv 1 s hreach
    rcases h1 with h0 | ⟨h2', hcl⟩
    · by_cases hidx : s.feedIdx < 1
      · exact absurd (FixedStep.feedCancel s h0 hidx) (hstuck _)
      · have hn : s.feedIdx = 1 := by omega
        exact absurd (FixedStep.feedFinish s h0 hn) (hstuck _)
    · by_cases hw : s.workerPC = 0
      · rcases Nat.eq_zero_or_pos s.queueLen with hq | hq
        · exact absurd (FixedStep.workerClosedExit s hw hq hcl) (hstuck _)
        · exact absurd (FixedStep.workerRecv s hw hq) (hstuck _)
      · have hw1 : s.workerPC = 1 := by omega
        by_cases hd : s.poolDone = true
        · exact hd
        · have hd' : s.poolDone = false := by simpa using hd
          exact absurd (FixedStep.poolWait s hw1 hd') (hstuck _)

/-- Terminal state of the fixed pool's cancelled run. -/
def poolFixedEnd : PoolState :=
  { feederPC := 2, queueClosed := true, workerPC := 1, poolDone := true }

/-- Witness: the fixed pool's terminal state is reachable, no transition is
enabled there, and the pool call has indeed returned. -/
theorem C10_deadlock_witness : poolFixedEnd.poolDone = true := by
  have r1 : Relation.ReflTransGen (FixedStep 1) poolInit
      { poolInit with feederPC := 2, queueClosed := true } :=
    Relation.ReflTransGen.single (FixedStep.feedCancel poolInit rfl (by decide))
  have r2 := Relation.ReflTransGen.tail r1 (FixedStep.workerClosedExit _ rfl rfl rfl)
  have r3 := Relation.ReflTransGen.tail r2 (FixedStep.poolWait _ rfl rfl)
  refine C10_deadlock.2 poolFixedEnd r3 ?_
  intro t h
  cases h <;> simp_all [poolFixedEnd]
